import Mathlib

/-!
The ksonnet build pipeline: a shallow embedding of `pkg/pipeline/pipeline.go`,
of `Path` and `envParams` of `pkg/component/component.go`, and of
`pkg/actions/env_set.go`.

The Go functions are embedded as pure Lean functions.

* Go strings are modelled by Lean `String`s (sequences of characters); the
  separators and the legacy-import literal are ASCII, so matching on
  characters and matching on bytes agree on valid UTF-8 text.
* A decoded JSON value (`interface{}` after `json.Unmarshal`) is a `JVal` tree.
  A Go `map[string]interface{}` is an association list read with `JMap.get`
  (first binding of the key) and written with `JMap.set` (overwrite the
  binding in place, or add one).  Values produced by `json.Unmarshal` are
  trees without sharing, so in-place mutation of a nested map is the same as
  rebuilding the path to it.
* Fallible calls return `Except GoError`; collaborators that are not part of
  the package (the JSON codec, the template evaluator, the module
  implementation) are taken as parameters.
-/

namespace Ksonnet

/-! ## Data model -/

/-- A decoded JSON value: what `json.Unmarshal` stores in an `interface{}`.
The payload of a number is never inspected by the pipeline. -/
inductive JVal where
  | null : JVal
  | bool (b : Bool) : JVal
  | num (n : Int) : JVal
  | str (s : String) : JVal
  | arr (items : List JVal) : JVal
  | obj (fields : List (String × JVal)) : JVal

/-- A Go `map[string]interface{}`. -/
abbrev JMap := List (String × JVal)

/-- Map read `m[k]`: the value and presence flag of a Go map index expression. -/
def JMap.get (m : JMap) (k : String) : Option JVal :=
  match m with
  | [] => none
  | (k', v) :: rest => if k' = k then some v else JMap.get rest k

/-- Map write `m[k] = v`: overwrite the binding of `k`, or add one. -/
def JMap.set (m : JMap) (k : String) (v : JVal) : JMap :=
  match m with
  | [] => [(k, v)]
  | (k', v') :: rest => if k' = k then (k, v) :: rest else (k', v') :: JMap.set rest k v

/-- Read along a path of keys through nested objects. -/
def JVal.getPath (v : JVal) (path : List String) : Option JVal :=
  match path, v with
  | [], v => some v
  | k :: ks, .obj m =>
    match JMap.get m k with
    | some v' => JVal.getPath v' ks
    | none => none
  | _ :: _, _ => none

/-- Errors of the Go code: an error handed back by a collaborator, an error
made with `errors.Errorf(format, args...)`, or `errors.Wrap(cause, msg)`. -/
inductive GoError where
  | external (msg : String) : GoError
  | errorf (format : String) (args : List String) : GoError
  | wrap (cause : GoError) (msg : String) : GoError
  deriving DecidableEq, Repr

/-! ## Strings -/

/-- Go `strings.TrimPrefix(s, p)`: `s` without the leading `p` when it has one. -/
def TrimPrefix (s p : String) : String :=
  if p.data.isPrefixOf s.data then ⟨s.data.drop p.data.length⟩ else s

/-- Replace the leftmost non-overlapping occurrences of the non-empty literal
`old` by `new`, scanning left to right; `skip` is the number of characters
of the current match still to be passed over.  This is what
`strings.Replace(s, old, new, -1)` and `Regexp.ReplaceAllLiteralString` of a
pattern that matches exactly the literal `old` compute. -/
def replaceFrom (old new : List Char) : Nat → List Char → List Char
  | _, [] => []
  | k + 1, _ :: cs => replaceFrom old new k cs
  | 0, c :: cs =>
    if old.isPrefixOf (c :: cs) then new ++ replaceFrom old new (old.length - 1) cs
    else c :: replaceFrom old new 0 cs

/-- Go `strings.Replace(s, old, new, -1)` for a non-empty `old`. -/
def Replace (s old new : String) : String :=
  ⟨replaceFrom old.data new.data 0 s.data⟩

/-! ## Labelling -/

/-- Modelled from the spec: the constant `clustermetadata.LabelComponent` of
`pkg/metadata`, the fixed reserved key of the component label
(`ksonnet.io/component`). -/
def LabelComponent : String := "ksonnet.io/component"

/-- The value `labelComponent` stores: `name` after
`TrimPrefix(name, "/")` and `Replace(name, "/", ".", -1)`. -/
def componentLabel (name : String) : String :=
  Replace (TrimPrefix name "/") "/" "."

/-- The type assertion `x.(map[string]interface{})` followed by
`if !ok { x = make(map[string]interface{}) }`: the map held by `x`, or a new
empty map when `x` is absent or not a map. -/
def mapOrNew (x : Option JVal) : JMap :=
  match x with
  | some (.obj fields) => fields
  | _ => []

/-- Go `labelComponent(m, name)`: the map `m` after the call. -/
def labelComponent (m : JMap) (name : String) : JMap :=
  let metadata : JMap := mapOrNew (m.get "metadata")
  let labels : JMap := mapOrNew (metadata.get "labels")
  let labels := labels.set LabelComponent (.str (componentLabel name))
  let metadata := metadata.set "labels" (.obj labels)
  m.set "metadata" (.obj metadata)

/-- The loop body of `labelComponents`: label the item when it is a map. -/
def labelItem (name : String) (item : JVal) : JVal :=
  match item with
  | .obj itemMap => .obj (labelComponent itemMap name)
  | other => other

/-- The test `m["apiVersion"] == "v1" && m["kind"] == "List"`. -/
def isV1List (m : JMap) : Bool :=
  (match m.get "apiVersion" with
    | some (.str s) => decide (s = "v1")
    | _ => false) &&
  (match m.get "kind" with
    | some (.str s) => decide (s = "List")
    | _ => false)

/-- Go `labelComponents(m, name)`: the map `m` after the call. -/
def labelComponents (m : JMap) (name : String) : JMap :=
  if isV1List m then
    match m.get "items" with
    | some (.arr list) => m.set "items" (.arr (list.map (labelItem name)))
    | _ => m
  else
    labelComponent m name

/-! ## Collaborators -/

/-- Modelled from the spec: `strings.InSlice` of `pkg/util/strings`, the
membership test of the filter ("discard entries whose component name is not
a member"). -/
def InSlice (s : String) (sl : List String) : Bool :=
  sl.any (fun x => decide (x = s))

/-- The `component.Component` interface, as far as the pipeline uses it:
`Name(wantsNameSpaced)`. -/
structure Component where
  Name : Bool → String

/-- An `astext.Object`: the fields of a rendered template document, each kept
as the document text `Text` of the field. -/
structure AstObject (Text : Type) where
  Fields : List Text

/-- The `component.Module` interface, as far as the pipeline uses it.  `Text`
is the type of document texts (a Go `string`); the pipeline only hands them
from one collaborator to the next. -/
structure Module (Text : Type) where
  Name : String
  Components : Except GoError (List Component)
  Render : String → List String → Except GoError (AstObject Text × List (String × String))
  ResolvedParams : String → Except GoError (Text × Text)

/-- Library functions the pipeline calls: `json.Marshal`, `json.Unmarshal`
into a `map[string]interface{}` (the entries come in the order in which
`range` visits them in the call at hand; Go fixes no order, so a statement
about two calls takes a library for each, differing in `Unmarshal`),
`printer.Fprint`, `params.PatchJSON`,
`unstructured.UnstructuredJSONScheme.Decode`, and the empty string. -/
structure Lib (Text : Type) where
  Marshal : JMap → Except GoError Text
  Unmarshal : Text → Except GoError JMap
  Fprint : AstObject Text → Except GoError Text
  PatchJSON : Text → Text → String → Except GoError Text
  Decode : Text → Except GoError JMap
  emptyText : Text

/-- The fields of `Pipeline` that the build reads, with `p.app` and `p.cm`
applied: `p.cm.Modules(p.app, p.envName)`, `env.Path(p.app, envName, file)`,
`p.evaluateEnvFn(p.app, ...)` and `p.evaluateEnvParamsFn(p.app, ...)`. -/
structure Pipeline (Text : Type) where
  envName : String
  Modules : Except GoError (List (Module Text))
  envPath : String → String → Except GoError String
  evaluateEnvFn : String → Text → Text → Except GoError Text
  evaluateEnvParamsFn : String → Text → String → String → Except GoError Text

/-! ## Parameter stubs -/

/-- The loop of `stubModule`: `componentsObject[c.Name(true)] = {}` for each
component in turn. -/
def stubComponents : List Component → JMap → JMap
  | [], componentsObject => componentsObject
  | c :: rest, componentsObject =>
    stubComponents rest (componentsObject.set (c.Name true) (.obj []))

/-- The document `stubModule` encodes: `{"components": componentsObject}`. -/
def stubDocument (components : List Component) : JMap :=
  [("components", .obj (stubComponents components []))]

/-- Go `stubModule(module)`. -/
def stubModule {Text : Type} (L : Lib Text) (module : Module Text) : Except GoError Text :=
  match module.Components with
  | .error err => .error (.wrap err "loading module components")
  | .ok components =>
    match L.Marshal (stubDocument components) with
    | .error err => .error err
    | .ok data => .ok data

/-- Go `Pipeline.moduleParams(module, inherited)`. -/
def moduleParams {Text : Type} (L : Lib Text) (p : Pipeline Text) (module : Module Text)
    (inherited : Bool) : Except GoError Text :=
  if !inherited then stubModule L module
  else
    match module.ResolvedParams p.envName with
    | .error err => .error (.wrap err ("resolve params for " ++ module.Name))
    | .ok (_, paramsStr) => .ok paramsStr

/-! ## Component filter -/

/-- The loop of `filterComponents`: append to `out` every component whose
qualified name is in the filter. -/
def filterLoop (filter : List String) : List Component → List Component → List Component
  | [], out => out
  | c :: rest, out =>
    if InSlice (c.Name true) filter then filterLoop filter rest (out ++ [c])
    else filterLoop filter rest out

/-- Go `filterComponents(filter, components)`. -/
def filterComponents (filter : List String) (components : List Component) : List Component :=
  if filter.length = 0 then components
  else filterLoop filter components []

/-! ## Legacy parameter import -/

/-- The text matched by `reParamSwap`,
`(?m)import "\.\.\/\.\.\/components\/params\.libsonnet"`: every
metacharacter of the pattern is escaped and it has no anchors, so it matches
exactly this literal. -/
def reParamSwap : String := "import \"../../components/params.libsonnet\""

/-- The replacement text of `upgradeParams`. -/
def extVarParams : String := "std.extVar(\"__ksonnet/params\")"

/-- Go `re.MatchString(s)` for a regexp matching exactly the literal `lit`. -/
def MatchString (lit : List Char) : List Char → Bool
  | [] => lit.isPrefixOf []
  | c :: cs => lit.isPrefixOf (c :: cs) || MatchString lit cs

/-- Go `re.ReplaceAllLiteralString(src, repl)` for a regexp matching exactly
the non-empty literal `lit`. -/
def ReplaceAllLiteralString (lit : String) (src repl : String) : String :=
  ⟨replaceFrom lit.data repl.data 0 src.data⟩

/-- A line written to the log: level, format and arguments. -/
structure LogEntry where
  level : String
  format : String
  args : List String
  deriving DecidableEq, Repr

/-- Go `upgradeParams(envName, in)`: the returned text and the lines logged. -/
def upgradeParams (envName doc : String) : String × List LogEntry :=
  if MatchString reParamSwap.data doc.data then
    (ReplaceAllLiteralString reParamSwap doc extVarParams,
      [⟨"warning", "rewriting %q environment params to not use relative paths", [envName]⟩])
  else
    (doc, [])

/-! ## Building the objects of a module -/

/-- The members a decoded object stands for: the object members of `items`
for a `v1` `List`, the object itself otherwise. -/
def flattenObject (o : JMap) : List JMap :=
  if isV1List o then
    match o.get "items" with
    | some (.arr list) =>
      list.filterMap (fun item => match item with
        | .obj itemMap => some itemMap
        | _ => none)
    | _ => []
  else [o]

/-- Modelled from the spec: `k8s.FlattenToV1` of `pkg/util/k8s`; a decoded
object that declares apiVersion "v1" and kind "List" is expanded into the
members of its items array, each an independent object, and any other
object is kept, in order. -/
def FlattenToV1 (objs : List JMap) : Except GoError (List JMap) :=
  .ok (objs.flatMap flattenObject)

/-- The `switch componentType` of `moduleObjects`: the document `patched`
handed to the decoder, from the encoded component `data`. -/
def patchedDocument {Text : Type} (L : Lib Text) (componentMap : List (String × String))
    (noGlobalParamData : Text) (componentName : String) (data : Text) : Except GoError Text :=
  -- componentType, ok := componentMap[componentName]; if !ok { componentType = "jsonnet" }
  let componentType : String :=
    match componentMap.lookup componentName with
    | some t => t
    | none => "jsonnet"
  if componentType = "jsonnet" then .ok data
  else if componentType = "yaml" then
    match L.PatchJSON data noGlobalParamData componentName with
    | .error err => .error (.wrap err "patching YAML/JSON component")
    | .ok patched => .ok patched
  else .ok L.emptyText

/-- One iteration of the loop of `moduleObjects`, after the filter test: the
object decoded for the entry `componentName: v`. -/
def componentObject {Text : Type} (L : Lib Text) (componentMap : List (String × String))
    (noGlobalParamData : Text) (componentName : String) (v : JVal) : Except GoError JMap :=
  match v with
  | .obj componentObject =>
    match L.Marshal (labelComponents componentObject componentName) with
    | .error err => .error err
    | .ok data =>
      match patchedDocument L componentMap noGlobalParamData componentName data with
      | .error err => .error err
      | .ok patched =>
        match L.Decode patched with
        | .error err => .error (.wrap err "decoding unstructured")
        | .ok uns => .ok uns
  | _ => .error (.errorf "component %q is not an object" [componentName])

/-- The loop `for componentName, v := range m` of `moduleObjects`, over the
entries in the order in which this call visits them (any order of the map,
not the same from call to call), with the slice `ret` built so far. -/
def componentLoop {Text : Type} (L : Lib Text) (componentMap : List (String × String))
    (noGlobalParamData : Text) (filter : List String) : JMap → List JMap → Except GoError (List JMap)
  | [], ret => .ok ret
  | (componentName, v) :: rest, ret =>
    if filter.length ≠ 0 ∧ InSlice componentName filter = false then
      componentLoop L componentMap noGlobalParamData filter rest ret
    else
      match componentObject L componentMap noGlobalParamData componentName v with
      | .error err => .error err
      | .ok uns => componentLoop L componentMap noGlobalParamData filter rest (ret ++ [uns])

/-- The first half of `moduleObjects`, up to `json.Unmarshal`: the kind
side-table of `Render`, the global parameter document, and the evaluator
result as a map from component name to value. -/
def evaluatorResult {Text : Type} (L : Lib Text) (p : Pipeline Text) (module : Module Text)
    (filter : List String) : Except GoError (List (String × String) × Text × JMap) :=
  match module.Render p.envName filter with
  | .error err => .error err
  | .ok (object, componentMap) =>
    let doc : AstObject Text := ⟨[] ++ object.Fields⟩
    match module.ResolvedParams p.envName with
    | .error err => .error err
    | .ok (noGlobalParamData, moduleParamData) =>
      match p.envPath p.envName "params.libsonnet" with
      | .error err => .error err
      | .ok envParamsPath =>
        match p.evaluateEnvParamsFn envParamsPath moduleParamData p.envName module.Name with
        | .error err => .error err
        | .ok envParamData =>
          match L.Fprint doc with
          | .error err => .error err
          | .ok buf =>
            match p.evaluateEnvFn p.envName buf envParamData with
            | .error err => .error err
            | .ok evaluated =>
              match L.Unmarshal evaluated with
              | .error err => .error err
              | .ok m => .ok (componentMap, noGlobalParamData, m)

/-- Go `Pipeline.moduleObjects(module, filter)`. -/
def moduleObjects {Text : Type} (L : Lib Text) (p : Pipeline Text) (module : Module Text)
    (filter : List String) : Except GoError (List JMap) :=
  match evaluatorResult L p module filter with
  | .error err => .error err
  | .ok (componentMap, noGlobalParamData, m) =>
    match componentLoop L componentMap noGlobalParamData filter m [] with
    | .error err => .error err
    | .ok ret => FlattenToV1 ret

/-! ## Building the objects of all modules -/

/-- The loop `for _, m := range modules` of `buildObjects`, with the slice
`ret` built so far. -/
def buildLoop {Text : Type} (L : Lib Text) (p : Pipeline Text) (filter : List String) :
    List (Module Text) → List JMap → Except GoError (List JMap)
  | [], ret => .ok ret
  | m :: rest, ret =>
    match moduleObjects L p m filter with
    | .error err => .error err
    | .ok objects => buildLoop L p filter rest (ret ++ objects)

/-- Go `buildObjects(p, filter)`. -/
def buildObjects {Text : Type} (L : Lib Text) (p : Pipeline Text) (filter : List String) :
    Except GoError (List JMap) :=
  match p.Modules with
  | .error err => .error (.wrap err "get modules")
  | .ok modules => buildLoop L p filter modules []

/-- Go `Pipeline.Objects(filter)`: the call of the field `buildObjectsFn`,
which `New` sets to `buildObjects`. -/
def Objects {Text : Type}
    (buildObjectsFn : Pipeline Text → List String → Except GoError (List JMap))
    (p : Pipeline Text) (filter : List String) : Except GoError (List JMap) :=
  buildObjectsFn p filter

/-! ## Component files (`pkg/component/component.go`) -/

/-- An `os.FileInfo` of a directory listing, as far as `Path` reads it. -/
structure FileInfo where
  Name : String
  IsDir : Bool
  deriving DecidableEq, Repr

/-- Go `os.IsPathSeparator(c)` on Unix. -/
def IsPathSeparator (c : Char) : Bool := decide (c = '/')

/-- The loop of `filepath.Ext`, `for i := len(path) - 1; i >= 0 &&
!os.IsPathSeparator(path[i]); i--`: `before` is `path[:i+1]` reversed and
`after` is `path[i+1:]`. -/
def extScan : List Char → List Char → List Char
  | [], _ => []
  | c :: before, after =>
    if IsPathSeparator c then []
    else if c = '.' then c :: after
    else extScan before (c :: after)

/-- Go `filepath.Ext(path)`: the suffix beginning at the final dot in the
final element of `path`, empty if there is no dot. -/
def Ext (path : String) : String := ⟨extScan path.data.reverse []⟩

/-- Go `strings.TrimSuffix(s, suffix)`. -/
def TrimSuffix (s suffix : String) : String :=
  if suffix.data.isSuffixOf s.data then ⟨s.data.take (s.data.length - suffix.data.length)⟩
  else s

/-- The local `base` of `Path`:
`strings.TrimSuffix(fi.Name(), filepath.Ext(fi.Name()))`. -/
def baseName (fi : FileInfo) : String := TrimSuffix fi.Name (Ext fi.Name)

/-- The loop `for _, fi := range fis` of `Path`: `files` holds the keys of the
map `files`, `fileName` is the local of that name; the result is `fileName`
after the loop, or the error of the early return. -/
def pathLoop (name localName : String) :
    List FileInfo → List String → String → Except GoError String
  | [], _, fileName => .ok fileName
  | fi :: rest, files, fileName =>
    if fi.IsDir then pathLoop name localName rest files fileName
    else
      if baseName fi ∈ files then
        .error (.errorf "Found multiple component files with component name %q" [name])
      else
        pathLoop name localName rest (baseName fi :: files)
          (if baseName fi = localName then fi.Name else fileName)

/-- Go `component.Path(a, name)`.  `dir` and `localName` are `ns.Dir()` and
the local name given by `extractModuleComponent(a, name)`, `readDir` is the
result of `afero.ReadDir(a.Fs(), ns.Dir())`, and `Join` is `filepath.Join`. -/
def Path (Join : List String → String) (dir localName : String)
    (readDir : Except GoError (List FileInfo)) (name : String) : Except GoError String :=
  match readDir with
  | .error err => .error err
  | .ok fis =>
    match pathLoop name localName fis [] "" with
    | .error err => .error err
    | .ok fileName =>
      if fileName = "" then .error (.errorf "No component name %q found" [name])
      else .ok (Join [dir, fileName])

/-! ## Setting an environment (`pkg/actions/env_set.go`) -/

/-- Modelled from the spec: `app.EnvironmentDestinationSpec` of `pkg/app`,
the destination of an environment (address and namespace). -/
structure EnvironmentDestinationSpec where
  Server : String
  Namespace : String
  deriving DecidableEq, Repr

/-- Modelled from the spec: `app.EnvironmentSpec` of `pkg/app`, a record
holding the path of the environment, its destination and the is-override
flag read by `IsOverride()`. -/
structure EnvironmentSpec where
  Path : String
  Destination : EnvironmentDestinationSpec
  isOverride : Bool
  deriving DecidableEq, Repr

/-- A call made by `EnvSet.Run` to one of its two function fields, with the
arguments after `es.app`. -/
inductive EnvCall where
  | rename (fromName toName : String) (override : Bool) : EnvCall
  | update (envName k8sAPISpec : String) (spec : EnvironmentSpec) (override : Bool) : EnvCall
  deriving DecidableEq, Repr

/-- The struct `EnvSet`, with `es.app` applied: `Environment` is
`es.app.Environment`, and the two function fields return the error of the
call, `none` for `nil`. -/
structure EnvSet where
  envName : String
  newName : String
  newNsName : String
  newServer : String
  newAPISpec : String
  Environment : String → Except GoError EnvironmentSpec
  envRenameFn : String → String → Bool → Option GoError
  updateEnvFn : String → String → EnvironmentSpec → Bool → Option GoError

/-- Go `EnvSet.updateName(isOverride)`: the returned error, the `EnvSet` after
the call and the calls made. -/
def updateName (es : EnvSet) (isOverride : Bool) : Option GoError × EnvSet × List EnvCall :=
  if es.newName ≠ "" then
    match es.envRenameFn es.envName es.newName isOverride with
    | some err => (some err, es, [.rename es.envName es.newName isOverride])
    | none => (none, { es with envName := es.newName },
        [.rename es.envName es.newName isOverride])
  else (none, es, [])

/-- Go `EnvSet.updateEnvSpec(env)`: the returned error, the record `env`
after the call and the calls made. -/
def updateEnvSpec (es : EnvSet) (env : EnvironmentSpec) :
    Option GoError × EnvironmentSpec × List EnvCall :=
  if es.newNsName = "" ∧ es.newServer = "" ∧ es.newAPISpec = "" then (none, env, [])
  else
    let env : EnvironmentSpec :=
      if es.newNsName ≠ "" then
        { env with Destination := { env.Destination with Namespace := es.newNsName } }
      else env
    let env : EnvironmentSpec :=
      if es.newServer ≠ "" then
        { env with Destination := { env.Destination with Server := es.newServer } }
      else env
    (es.updateEnvFn es.envName es.newAPISpec env env.isOverride, env,
      [.update es.envName es.newAPISpec env env.isOverride])

/-- Go `EnvSet.Run()`: the returned error and the calls made, in order. -/
def Run (es : EnvSet) : Option GoError × List EnvCall :=
  match es.Environment es.envName with
  | .error err => (some err, [])
  | .ok env =>
    match updateName es env.isOverride with
    | (some err, _, calls) => (some err, calls)
    | (none, es, calls) =>
      match updateEnvSpec es env with
      | (some err, _, calls') => (some err, calls ++ calls')
      | (none, _, calls') => (none, calls ++ calls')

/-! ## Evaluating environment parameters -/

/-- Modelled from the spec: the evaluator handle `jsonnet.VM` of
`pkg/util/jsonnet`, which holds what the template evaluator is given: the
search paths added with `AddJPath`, in priority order (first match wins),
and the external variables set with `ExtCode`. -/
structure VM (Text : Type) where
  jPaths : List String
  extCodes : List (String × Text)

/-- Modelled from the spec: `jsonnet.NewVM()` of `pkg/util/jsonnet`, an
evaluator handle with no search path and no external variable. -/
def NewVM {Text : Type} : VM Text := ⟨[], []⟩

/-- Modelled from the spec: `vm.AddJPath(paths...)` of `pkg/util/jsonnet`
(`AddSearchPath(paths...)`), which adds the paths after those already there. -/
def VM.AddJPath {Text : Type} (vm : VM Text) (paths : List String) : VM Text :=
  { vm with jPaths := vm.jPaths ++ paths }

/-- Modelled from the spec: `vm.ExtCode(key, value)` of `pkg/util/jsonnet`
(`SetExternalVariable(name, jsonText)`), which binds the variable `key`. -/
def VM.ExtCode {Text : Type} (vm : VM Text) (key : String) (value : Text) : VM Text :=
  { vm with extCodes := (vm.extCodes.filter (fun kv => decide (kv.1 ≠ key))) ++ [(key, value)] }

/-- The `app.App` interface, as far as the evaluation of environment
parameters uses it, together with the functions called on its results:
`GetModule` is `p.cm.Module(p.app, name)` in the pipeline and
`GetModule(a, name)` in `pkg/component`, `MakePath` is
`EnvironmentSpec.MakePath`, `Join` is `filepath.Join` and `EvaluateSnippet`
is `vm.EvaluateSnippet(label, snippet)` of the evaluator handle. -/
structure App (Text : Type) where
  Root : String
  LibPath : String → Except GoError String
  EnvironmentParams : String → Except GoError String
  Environment : String → Except GoError EnvironmentSpec
  GetModule : String → Except GoError (Module Text)
  MakePath : EnvironmentSpec → String → String
  Join : List String → String
  EvaluateSnippet : VM Text → String → String → Except GoError Text

/-- Go `Pipeline.EnvParameters(moduleName, inherited)`, with `a` for `p.app`. -/
def EnvParameters {Text : Type} (L : Lib Text) (a : App Text) (p : Pipeline Text)
    (moduleName : String) (inherited : Bool) : Except GoError Text :=
  match a.GetModule moduleName with
  | .error err => .error (.wrap err ("load module " ++ moduleName))
  | .ok module =>
    match moduleParams L p module inherited with
    | .error err => .error err
    | .ok paramsStr =>
      match a.EnvironmentParams p.envName with
      | .error err => .error (.wrap err ("retrieve environment params for " ++ p.envName))
      | .ok data =>
        let envParams := (upgradeParams p.envName data).1
        match a.Environment p.envName with
        | .error err => .error (.wrap err ("load environment " ++ p.envName))
        | .ok env =>
          let vm : VM Text := NewVM
          let vm := vm.AddJPath
            [a.MakePath env a.Root, a.Join [a.Root, "lib"], a.Join [a.Root, "vendor"]]
          let vm := vm.ExtCode "__ksonnet/params" paramsStr
          a.EvaluateSnippet vm "snippet" envParams

/-- Go `envParams(a, moduleName, envName)` of `pkg/component`; its
`upgradeParams` is the one of that package, taken to be the rewrite above. -/
def envParams {Text : Type} (a : App Text) (moduleName envName : String) :
    Except GoError Text :=
  match a.LibPath envName with
  | .error err => .error err
  | .ok libPath =>
    match a.GetModule moduleName with
    | .error err => .error err
    | .ok ns =>
      match ns.ResolvedParams envName with
      | .error err => .error err
      | .ok (_, paramsStr) =>
        match a.EnvironmentParams envName with
        | .error err => .error err
        | .ok data =>
          match a.Environment envName with
          | .error err => .error err
          | .ok env =>
            let envParams := (upgradeParams envName data).1
            let vm : VM Text := NewVM
            let vm := vm.AddJPath
              [libPath, a.MakePath env a.Root, a.Join [a.Root, "lib"], a.Join [a.Root, "vendor"]]
            let vm := vm.ExtCode "__ksonnet/params" paramsStr
            a.EvaluateSnippet vm "snippet" envParams

/-! ## Definitions that follow the specification's words -/

/-- The label value in the specification's words: the component name with
its leading separator `/` stripped and every remaining `/` replaced by `.`. -/
def specComponentLabel (name : String) : String :=
  let stripped : List Char :=
    match name.data with
    | '/' :: rest => rest
    | cs => cs
  ⟨stripped.map (fun c => if c = '/' then '.' else c)⟩

/-- The text made of the segments `u, v₁, …, vₙ` with `sep` between each
segment and the next: `u ++ sep ++ v₁ ++ sep ++ … ++ vₙ`.  A text cut at the
occurrences of a literal is `joinSegments literal u vs`, and the text with
every occurrence replaced by `repl` is `joinSegments repl u vs`. -/
def joinSegments (sep : List Char) : List Char → List (List Char) → List Char
  | u, [] => u
  | u, v :: vs => u ++ sep ++ joinSegments sep v vs

/-- No non-empty suffix of `a` is a prefix of `b` or has `b` as a prefix: an
occurrence of `a` followed by `b` cannot run from inside `a` into `b`. -/
def overlapFree (a b : List Char) : Bool :=
  a.tails.all (fun y => y.isEmpty || (!y.isPrefixOf b && !b.isPrefixOf y))

/-- No non-empty proper suffix of `a` is a prefix of `a`: two occurrences of
`a` cannot overlap. -/
def borderFree (a : List Char) : Bool :=
  a.tail.tails.all (fun y => y.isEmpty || !y.isPrefixOf a)

/-- The number of occurrences of the literal `lit` in a text: the number of
positions at which `lit` starts. -/
def countOccurrences (lit : List Char) : List Char → Nat
  | [] => if lit.isPrefixOf [] then 1 else 0
  | c :: cs => (if lit.isPrefixOf (c :: cs) then 1 else 0) + countOccurrences lit cs

/-- The environment record after an update, in the claim's words: the
namespace is the new one when a new namespace is given, the server is the
new one when a new server is given, and everything else is as before. -/
def specUpdatedEnv (es : EnvSet) (env : EnvironmentSpec) : EnvironmentSpec where
  Path := env.Path
  Destination :=
    { Server := if es.newServer = "" then env.Destination.Server else es.newServer
      Namespace := if es.newNsName = "" then env.Destination.Namespace else es.newNsName }
  isOverride := env.isOverride

/-! ## Example inputs -/

/-- A `v1` `List` with one object member and one member that is not an object. -/
def exampleList : JMap :=
  [("apiVersion", .str "v1"), ("kind", .str "List"),
    ("metadata", .obj [("name", .str "all")]),
    ("items", .arr [.obj [("kind", .str "Service")], .num 7])]

/-- A document text of the examples: the JSON text of a map, identified
with the map it encodes, or some other text. -/
inductive ExampleText where
  | json (m : JMap) : ExampleText
  | source (s : String) : ExampleText

/-- A library over `ExampleText`: `Marshal` and `Unmarshal` are inverse on
JSON texts, `Decode` accepts a JSON text that declares a `kind`, and
`PatchJSON` leaves the document as it is. -/
def exampleLib : Lib ExampleText where
  Marshal := fun m => .ok (.json m)
  Unmarshal := fun t =>
    match t with
    | .json m => .ok m
    | .source _ => .error (.external "invalid character looking for beginning of value")
  Fprint := fun _ => .ok (.source "{ }")
  PatchJSON := fun data _ _ => .ok data
  Decode := fun t =>
    match t with
    | .json m =>
      match m.get "kind" with
      | some (.str _) => .ok m
      | _ => .error (.external "Object 'Kind' is missing")
    | .source _ => .error (.external "couldn't get version/kind; json parse error")
  emptyText := .source ""

/-- A module with the components `/web/api` and `/web/ui` whose evaluated
template document is `evaluated` and whose kind side-table is
`componentMap`. -/
def exampleModule (componentMap : List (String × String)) : Module ExampleText where
  Name := "/web"
  Components := .ok [⟨fun _ => "/web/api"⟩, ⟨fun _ => "/web/ui"⟩]
  Render := fun _ _ => .ok (⟨[]⟩, componentMap)
  ResolvedParams := fun _ => .ok (.source "{ components: { } }", .source "{ components: { } }")

/-- A module whose component listing fails. -/
def brokenModule : Module ExampleText where
  Name := "/web"
  Components := .error (.external "open components/web: no such file or directory")
  Render := fun _ _ => .error (.external "open components/web: no such file or directory")
  ResolvedParams := fun _ => .error (.external "open components/web: no such file or directory")

/-- A pipeline for the environment `default` whose evaluator returns the JSON
text of `evaluated` for every module. -/
def examplePipeline (componentMap : List (String × String)) (evaluated : JMap) :
    Pipeline ExampleText where
  envName := "default"
  Modules := .ok [exampleModule componentMap]
  envPath := fun envName file => .ok ("environments/" ++ envName ++ "/" ++ file)
  evaluateEnvFn := fun _ _ _ => .ok (.json evaluated)
  evaluateEnvParamsFn := fun _ paramsStr _ _ => .ok paramsStr

/-- An environment parameter document with two legacy imports. -/
def twoImports : String :=
  "local a = import \"../../components/params.libsonnet\";\nlocal b = import \"../../components/params.libsonnet\";\na + b"

/-- A `ConfigMap` object as the evaluator returns it. -/
def exampleConfigMap : JMap :=
  [("apiVersion", .str "v1"), ("kind", .str "ConfigMap")]

/-- An evaluator result with an object entry `a` and an entry `b` that is
not an object. -/
def mixedResult : JMap :=
  [("a", .obj exampleConfigMap), ("b", .num 5)]

/-- An evaluator result with two object entries. -/
def twoObjects : JMap :=
  [("a", .obj exampleConfigMap), ("b", .obj exampleConfigMap)]

/-- The object decoded for `exampleConfigMap` of component `a`. -/
def labelledConfigMap : JMap :=
  [("apiVersion", .str "v1"), ("kind", .str "ConfigMap"),
    ("metadata", .obj [("labels", .obj [(LabelComponent, .str "a")])])]

/-- A pipeline over the two modules `/web` and `/db`; the evaluator returns
`first` while it evaluates the rendered document of `/web` and `second` for
`/db`, told apart by their parameter documents. -/
def twoModulePipeline (first second : JMap) : Pipeline ExampleText where
  envName := "default"
  Modules := .ok [
    { Name := "/web", Components := .ok [], Render := fun _ _ => .ok (⟨[]⟩, []),
      ResolvedParams := fun _ => .ok (.source "web", .source "web") },
    { Name := "/db", Components := .ok [], Render := fun _ _ => .ok (⟨[]⟩, []),
      ResolvedParams := fun _ => .ok (.source "db", .source "db") }]
  envPath := fun envName file => .ok ("environments/" ++ envName ++ "/" ++ file)
  evaluateEnvFn := fun _ _ params =>
    match params with
    | .source "web" => .ok (.json first)
    | _ => .ok (.json second)
  evaluateEnvParamsFn := fun _ paramsStr _ _ => .ok paramsStr

/-- A `Secret` object as the evaluator returns it. -/
def exampleSecret : JMap :=
  [("apiVersion", .str "v1"), ("kind", .str "Secret")]

/-- The object decoded for `exampleSecret` of component `s`. -/
def labelledSecret : JMap :=
  [("apiVersion", .str "v1"), ("kind", .str "Secret"),
    ("metadata", .obj [("labels", .obj [(LabelComponent, .str "s")])])]

/-- A join of path elements with `/`, standing for `filepath.Join` on
elements that are already clean. -/
def exampleJoin (elems : List String) : String := "/".intercalate elems

/-- A listing of a module directory: two component files, the parameter
file and a sub-directory that shares its name with a component. -/
def exampleListing : List FileInfo :=
  [⟨"api.jsonnet", false⟩, ⟨"params.libsonnet", false⟩, ⟨"ui", true⟩, ⟨"ui.yaml", false⟩]

/-- A listing in which `ui.yaml` and `ui.json` both stand for the component `ui`. -/
def ambiguousListing : List FileInfo :=
  [⟨"api.jsonnet", false⟩, ⟨"ui.json", false⟩, ⟨"ui.yaml", false⟩]

/-- The environment record of the test `TestEnvSet`. -/
def oldEnv : EnvironmentSpec :=
  { Path := "old_env_name",
    Destination := { Server := "old_server", Namespace := "old_namespace" },
    isOverride := false }

/-- An `EnvSet` for the environment `old_env_name` whose rename and update
functions succeed. -/
def exampleEnvSet (newName newNsName newServer newAPISpec : String) : EnvSet where
  envName := "old_env_name"
  newName := newName
  newNsName := newNsName
  newServer := newServer
  newAPISpec := newAPISpec
  Environment := fun _ => .ok oldEnv
  envRenameFn := fun _ _ _ => none
  updateEnvFn := fun _ _ _ _ => none

/-- An `EnvSet` that sets everything at once and whose rename fails. -/
def failingRename : EnvSet :=
  { exampleEnvSet "new_env_name" "new_namespace" "new_server" "version:new_api_spec" with
    envRenameFn := fun _ _ _ => some (.external "environment exists") }

/-- A project rooted at `/app` with the environment `default`, over an
evaluator `eval`. -/
def exampleApp (eval : VM ExampleText → String → String → Except GoError ExampleText) :
    App ExampleText where
  Root := "/app"
  LibPath := fun _ => .ok "/app/lib/v1.7.0"
  EnvironmentParams := fun _ => .ok "{ }"
  Environment := fun _ =>
    .ok { Path := "default", Destination := { Server := "", Namespace := "default" },
          isOverride := false }
  GetModule := fun _ => .ok (exampleModule [])
  MakePath := fun env root => exampleJoin [root, "environments", env.Path]
  Join := exampleJoin
  EvaluateSnippet := eval

/-- The decoding of `exampleLib` with the entries visited in the opposite
order. -/
def reversedUnmarshal (t : ExampleText) : Except GoError JMap :=
  match exampleLib.Unmarshal t with
  | .error err => .error err
  | .ok m => .ok m.reverse

/-! # Theorems -/

/-! ## Maps -/

theorem JMap.get_set_same (m : JMap) (k : String) (v : JVal) :
    (m.set k v).get k = some v := by
  induction m with
  | nil => simp [JMap.set, JMap.get]
  | cons kv rest ih =>
    obtain ⟨k', v'⟩ := kv
    by_cases h : k' = k
    · simp [JMap.set, JMap.get, h]
    · simp [JMap.set, JMap.get, h, ih]

theorem JMap.get_set_other (m : JMap) (k k' : String) (v : JVal) (h : k' ≠ k) :
    (m.set k v).get k' = m.get k' := by
  induction m with
  | nil => simp [JMap.set, JMap.get, Ne.symm h]
  | cons kv rest ih =>
    obtain ⟨k₀, v₀⟩ := kv
    by_cases h₀ : k₀ = k
    · subst h₀
      simp [JMap.set, JMap.get, Ne.symm h]
    · simp [JMap.set, JMap.get, h₀, ih]

/-! ## Labels -/

theorem replaceFrom_slash (cs : List Char) :
    replaceFrom ['/'] ['.'] 0 cs = cs.map (fun c => if c = '/' then '.' else c) := by
  induction cs with
  | nil => rfl
  | cons c rest ih =>
    by_cases h : c = '/'
    · subst h
      simp [replaceFrom, List.isPrefixOf, ih]
    · have h' : ('/' == c) = false := by
        simpa using Ne.symm h
      simp [replaceFrom, List.isPrefixOf, ih, h, h']

theorem trimPrefix_slash (name : String) :
    (TrimPrefix name "/").data =
      (match name.data with
        | '/' :: rest => rest
        | cs => cs) := by
  unfold TrimPrefix
  cases hd : name.data with
  | nil => simp [List.isPrefixOf, hd]
  | cons c rest =>
    by_cases h : c = '/'
    · subst h
      simp [List.isPrefixOf, hd]
    · have h' : ('/' == c) = false := by
        simpa using Ne.symm h
      have : ("/" : String).data = ['/'] := rfl
      simp [this, List.isPrefixOf, hd, h']
      split
      · rename_i heq
        injection heq with h1 _
        exact absurd h1 h
      · rfl

theorem componentLabel_eq_spec (name : String) :
    componentLabel name = specComponentLabel name := by
  unfold componentLabel specComponentLabel Replace
  have h1 : ("/" : String).data = ['/'] := rfl
  have h2 : (".": String).data = ['.'] := rfl
  rw [h1, h2, replaceFrom_slash, trimPrefix_slash]

theorem JVal.getPath_obj (m : JMap) (k : String) (ks : List String) :
    (JVal.obj m).getPath (k :: ks) = (m.get k).bind (fun v => v.getPath ks) := by
  cases h : m.get k <;> simp [JVal.getPath, h]

theorem getPath_set_same (m : JMap) (k : String) (v : JVal) (ks : List String) :
    (JVal.obj (m.set k v)).getPath (k :: ks) = v.getPath ks := by
  rw [JVal.getPath_obj, JMap.get_set_same]
  rfl

theorem getPath_set_other (m : JMap) (k k' : String) (v : JVal) (ks : List String)
    (h : k' ≠ k) :
    (JVal.obj (m.set k v)).getPath (k' :: ks) = (JVal.obj m).getPath (k' :: ks) := by
  rw [JVal.getPath_obj, JVal.getPath_obj, JMap.get_set_other _ _ _ _ h]

theorem getPath_mapOrNew (x : Option JVal) (k : String) (ks : List String) :
    (JVal.obj (mapOrNew x)).getPath (k :: ks) = x.bind (fun v => v.getPath (k :: ks)) := by
  rcases x with _ | v
  · simp [mapOrNew, JVal.getPath, JMap.get]
  · cases v <;> simp [mapOrNew, JVal.getPath, JMap.get]

theorem labelComponent_getPath (m : JMap) (name : String) :
    (JVal.obj (labelComponent m name)).getPath ["metadata", "labels", LabelComponent]
      = some (.str (componentLabel name)) := by
  unfold labelComponent
  rw [getPath_set_same, getPath_set_same, getPath_set_same]
  rfl

/-- C1: after `labelComponent(m, n)` the value at `metadata.labels` under the
reserved component-label key is `n` with its leading `/` removed and every
remaining `/` replaced by `.`, whatever `m` held before; the path
`moduleA/moduleB/widget` gives `moduleA.moduleB.widget`, and the label value
never contains `/`. -/
theorem labelComponent_label (m : JMap) (n : String) :
    (JVal.obj (labelComponent m n)).getPath ["metadata", "labels", LabelComponent]
        = some (.str (componentLabel n))
      ∧ componentLabel n = specComponentLabel n
      ∧ '/' ∉ (componentLabel n).data
      ∧ componentLabel "moduleA/moduleB/widget" = "moduleA.moduleB.widget" := by
  refine ⟨labelComponent_getPath m n, componentLabel_eq_spec n, ?_, by decide⟩
  rw [componentLabel_eq_spec]
  unfold specComponentLabel
  simp only [List.mem_map, not_exists, not_and]
  intro c _ hc
  by_cases h : c = '/'
  · simp [h] at hc
  · simp [h] at hc

/-- C2: `labelComponent(m, n)` leaves every label other than the reserved
component-label key, every other field of `metadata`, and every other
top-level field of `m` with the value it had before. -/
theorem labelComponent_frame (m : JMap) (n : String) :
    (∀ k, k ≠ LabelComponent →
        (JVal.obj (labelComponent m n)).getPath ["metadata", "labels", k]
          = (JVal.obj m).getPath ["metadata", "labels", k])
      ∧ (∀ k, k ≠ "labels" →
        (JVal.obj (labelComponent m n)).getPath ["metadata", k]
          = (JVal.obj m).getPath ["metadata", k])
      ∧ (∀ k, k ≠ "metadata" → (labelComponent m n).get k = m.get k) := by
  refine ⟨?_, ?_, ?_⟩
  · intro k hk
    unfold labelComponent
    rw [getPath_set_same, getPath_set_same, getPath_set_other _ _ _ _ _ hk,
      getPath_mapOrNew, ← JVal.getPath_obj, getPath_mapOrNew, ← JVal.getPath_obj]
  · intro k hk
    unfold labelComponent
    rw [getPath_set_same, getPath_set_other _ _ _ _ _ hk, getPath_mapOrNew,
      ← JVal.getPath_obj]
  · intro k hk
    simp only [labelComponent, JMap.get_set_other _ _ _ _ hk]

/-! ## List wrappers -/

theorem isV1List_iff (m : JMap) :
    isV1List m = true ↔
      (m.get "apiVersion" = some (.str "v1") ∧ m.get "kind" = some (.str "List")) := by
  unfold isV1List
  rcases ha : m.get "apiVersion" with _ | a
  · simp
  · rcases hk : m.get "kind" with _ | kd
    · cases a <;> simp
    · cases a <;> cases kd <;> simp

/-- C3: for an object `m` that declares apiVersion "v1" and kind "List",
`labelComponents(m, n)` labels every member of the `items` array (each member
that is an object becomes `labelComponent` of it and so carries the component
label; a member that is not an object cannot carry a label and is kept) and
leaves the wrapper's own fields, its metadata included, unchanged; for every
other object it has the effect of `labelComponent(m, n)`. -/
theorem labelComponents_list_or_single (m : JMap) (n : String) :
    ((m.get "apiVersion" = some (.str "v1") ∧ m.get "kind" = some (.str "List")) →
        (∀ list, m.get "items" = some (.arr list) →
          (labelComponents m n).get "items" = some (.arr (list.map (labelItem n))))
        ∧ (∀ item : JMap, labelItem n (.obj item) = .obj (labelComponent item n)
            ∧ (labelItem n (.obj item)).getPath ["metadata", "labels", LabelComponent]
                = some (.str (componentLabel n)))
        ∧ (∀ k, k ≠ "items" → (labelComponents m n).get k = m.get k)
        ∧ ((∀ list, m.get "items" ≠ some (.arr list)) → labelComponents m n = m))
      ∧ (¬ (m.get "apiVersion" = some (.str "v1") ∧ m.get "kind" = some (.str "List")) →
        labelComponents m n = labelComponent m n) := by
  constructor
  · intro h
    have hl : isV1List m = true := (isV1List_iff m).2 h
    refine ⟨?_, ?_, ?_, ?_⟩
    · intro list hitems
      simp only [labelComponents, hl, if_true, hitems, JMap.get_set_same]
    · intro item
      exact ⟨rfl, labelComponent_getPath item n⟩
    · intro k hk
      unfold labelComponents
      rw [if_pos hl]
      split
      · exact JMap.get_set_other _ _ _ _ hk
      · rfl
    · intro hno
      unfold labelComponents
      rw [if_pos hl]
      split
      · rename_i list hitems
        exact absurd hitems (hno list)
      · rfl
  · intro h
    have hl : ¬ isV1List m = true := fun hc => h ((isV1List_iff m).1 hc)
    unfold labelComponents
    rw [if_neg hl]

theorem labelComponents_list_or_single_witness :
    (exampleList.get "apiVersion" = some (.str "v1")
        ∧ exampleList.get "kind" = some (.str "List"))
      ∧ (labelComponents exampleList "/web/ui").get "items"
          = some (.arr [.obj [("kind", .str "Service"),
              ("metadata", .obj [("labels", .obj [(LabelComponent, .str "web.ui")])])],
            .num 7])
      ∧ (labelComponents exampleList "/web/ui").get "metadata"
          = some (.obj [("name", .str "all")]) :=
  ⟨⟨rfl, rfl⟩,
    ((labelComponents_list_or_single exampleList "/web/ui").1 ⟨rfl, rfl⟩).1 _ rfl,
    (((labelComponents_list_or_single exampleList "/web/ui").1 ⟨rfl, rfl⟩).2.2.1
      "metadata" (by decide)).trans rfl⟩

/-! ## Component filter -/

theorem filterLoop_eq (filter : List String) (cs out : List Component) :
    filterLoop filter cs out = out ++ cs.filter (fun c => InSlice (c.Name true) filter) := by
  induction cs generalizing out with
  | nil => simp [filterLoop]
  | cons c rest ih =>
    by_cases h : InSlice (c.Name true) filter = true
    · simp [filterLoop, h, ih]
    · simp [filterLoop, h, ih]

theorem InSlice_iff (s : String) (sl : List String) : InSlice s sl = true ↔ s ∈ sl := by
  simp [InSlice]

/-- C5: an empty filter means no filtering, `filterComponents([], cs) = cs`;
for a non-empty filter `F`, `filterComponents(F, cs)` is exactly the
components of `cs` whose module-qualified name `Name(true)` is a member of
`F`, in the order they had in `cs`. -/
theorem filterComponents_spec (F : List String) (cs : List Component) :
    filterComponents [] cs = cs
      ∧ (F ≠ [] →
          filterComponents F cs = cs.filter (fun c => decide (c.Name true ∈ F))
          ∧ (filterComponents F cs).Sublist cs
          ∧ (∀ c, c ∈ filterComponents F cs ↔ (c ∈ cs ∧ c.Name true ∈ F))) := by
  refine ⟨rfl, ?_⟩
  intro hF
  have hlen : ¬ F.length = 0 := by
    intro h
    exact hF (List.length_eq_zero.mp h)
  have heq : filterComponents F cs = cs.filter (fun c => decide (c.Name true ∈ F)) := by
    unfold filterComponents
    rw [if_neg hlen, filterLoop_eq, List.nil_append]
    congr 1
    funext c
    rw [Bool.eq_iff_iff, InSlice_iff]
    simp
  refine ⟨heq, ?_, ?_⟩
  · rw [heq]
    exact List.filter_sublist cs
  · intro c
    rw [heq]
    simp [List.mem_filter]

theorem filterComponents_spec_witness :
    (["/web/ui"] : List String) ≠ []
      ∧ (filterComponents ["/web/ui"]
            [⟨fun _ => "/web/api"⟩, ⟨fun _ => "/web/ui"⟩, ⟨fun _ => "/db"⟩]).map
          (fun c => c.Name true) = ["/web/ui"] :=
  ⟨by decide, by
    rw [((filterComponents_spec ["/web/ui"]
      [⟨fun _ => "/web/api"⟩, ⟨fun _ => "/web/ui"⟩, ⟨fun _ => "/db"⟩]).2 (by decide)).1]
    decide⟩

/-! ## Parameter stubs -/

theorem stubComponents_get (cs : List Component) (acc : JMap) (k : String) :
    (stubComponents cs acc).get k =
      if k ∈ cs.map (fun c => c.Name true) then some (.obj []) else acc.get k := by
  induction cs generalizing acc with
  | nil => simp [stubComponents]
  | cons c rest ih =>
    rw [stubComponents, ih]
    by_cases hr : k ∈ rest.map (fun c => c.Name true)
    · simp [hr]
    · by_cases hk : k = c.Name true
      · subst hk
        simp [hr, JMap.get_set_same]
      · simp [hr, hk, JMap.get_set_other _ _ _ _ hk]

theorem JMap.mem_set (m : JMap) (k : String) (v : JVal) (kv : String × JVal) :
    kv ∈ m.set k v → kv = (k, v) ∨ kv ∈ m := by
  induction m with
  | nil => simp [JMap.set]
  | cons hd rest ih =>
    obtain ⟨k₀, v₀⟩ := hd
    by_cases h : k₀ = k
    · simp only [JMap.set, h, if_true, List.mem_cons]
      rintro (h1 | h1)
      · exact Or.inl h1
      · exact Or.inr (Or.inr h1)
    · simp only [JMap.set, h, if_false, List.mem_cons]
      rintro (h1 | h1)
      · exact Or.inr (Or.inl h1)
      · rcases ih h1 with h2 | h2
        · exact Or.inl h2
        · exact Or.inr (Or.inr h2)

theorem JMap.keys_set_nodup (m : JMap) (k : String) (v : JVal)
    (h : (m.map Prod.fst).Nodup) : ((m.set k v).map Prod.fst).Nodup := by
  induction m with
  | nil => simp [JMap.set]
  | cons hd rest ih =>
    obtain ⟨k₀, v₀⟩ := hd
    simp only [List.map_cons, List.nodup_cons] at h
    by_cases hk : k₀ = k
    · subst hk
      simpa [JMap.set] using h
    · simp only [JMap.set, hk, if_false, List.map_cons, List.nodup_cons]
      refine ⟨?_, ih h.2⟩
      intro hmem
      rcases List.mem_map.mp hmem with ⟨kv, hkv, hfst⟩
      rcases JMap.mem_set rest k v kv hkv with h1 | h1
      · subst h1
        exact hk hfst.symm
      · exact h.1 (List.mem_map.mpr ⟨kv, h1, hfst⟩)

theorem stubComponents_invariant (cs : List Component) (acc : JMap)
    (hnodup : (acc.map Prod.fst).Nodup) (hval : ∀ kv ∈ acc, kv.2 = .obj []) :
    ((stubComponents cs acc).map Prod.fst).Nodup
      ∧ ∀ kv ∈ stubComponents cs acc, kv.2 = .obj [] := by
  induction cs generalizing acc with
  | nil => exact ⟨hnodup, hval⟩
  | cons c rest ih =>
    rw [stubComponents]
    apply ih
    · exact JMap.keys_set_nodup _ _ _ hnodup
    · intro kv hkv
      rcases JMap.mem_set _ _ _ kv hkv with h1 | h1
      · rw [h1]
      · exact hval kv h1

theorem JMap.get_isSome_iff (m : JMap) (k : String) :
    (m.get k).isSome = true ↔ k ∈ m.map Prod.fst := by
  induction m with
  | nil => simp [JMap.get]
  | cons hd rest ih =>
    obtain ⟨k₀, v₀⟩ := hd
    by_cases h : k₀ = k
    · simp [JMap.get, h]
    · have h' : ¬ k = k₀ := fun e => h e.symm
      simp [JMap.get, h, h', ih]

/-- C6: when the component listing of the module succeeds, `stubModule`
returns what `json.Marshal` gives for the document `{"components": C}`,
where `C` is a map whose key set is exactly the set of qualified names
`Name(true)` of the module's components and in which every key is mapped to
the empty object; when the listing fails, `stubModule` returns an error and
no document. -/
theorem stubModule_spec {Text : Type} (L : Lib Text) (module : Module Text) :
    (∀ cs, module.Components = .ok cs →
        stubModule L module = L.Marshal [("components", .obj (stubComponents cs []))]
        ∧ (∀ k, k ∈ (stubComponents cs []).map Prod.fst ↔ k ∈ cs.map (fun c => c.Name true))
        ∧ ((stubComponents cs []).map Prod.fst).Nodup
        ∧ (∀ k, k ∈ cs.map (fun c => c.Name true) →
            (stubComponents cs []).get k = some (.obj []))
        ∧ (∀ kv ∈ stubComponents cs [], kv.2 = .obj []))
      ∧ (∀ e, module.Components = .error e →
          stubModule L module = .error (.wrap e "loading module components")) := by
  constructor
  · intro cs hcs
    have hinv := stubComponents_invariant cs [] (by simp) (by simp)
    refine ⟨?_, ?_, hinv.1, ?_, hinv.2⟩
    · unfold stubModule
      rw [hcs]
      simp only [stubDocument]
      cases L.Marshal [("components", .obj (stubComponents cs []))] <;> rfl
    · intro k
      rw [← JMap.get_isSome_iff, stubComponents_get]
      by_cases hk : k ∈ cs.map (fun c => c.Name true)
      · simp only [hk, if_true, Option.isSome_some]
      · simp [hk, JMap.get]
    · intro k hk
      rw [stubComponents_get, if_pos hk]
  · intro e he
    unfold stubModule
    rw [he]

theorem stubModule_spec_witness :
    (exampleModule []).Components = .ok [⟨fun _ => "/web/api"⟩, ⟨fun _ => "/web/ui"⟩]
      ∧ stubModule exampleLib (exampleModule [])
          = exampleLib.Marshal
              [("components", .obj [("/web/api", .obj []), ("/web/ui", .obj [])])]
      ∧ stubModule exampleLib brokenModule
          = .error (.wrap (.external "open components/web: no such file or directory")
              "loading module components") :=
  ⟨rfl, ((stubModule_spec exampleLib (exampleModule [])).1 _ rfl).1,
    (stubModule_spec exampleLib brokenModule).2 _ rfl⟩

/-! ## Literal replacement -/

theorem replaceFrom_skip (old new : List Char) (k : Nat) (s : List Char) :
    replaceFrom old new k s = replaceFrom old new 0 (s.drop k) := by
  induction s generalizing k with
  | nil => simp [replaceFrom]
  | cons c cs ih =>
    cases k with
    | zero => rfl
    | succ k => rw [replaceFrom, ih k, List.drop_succ_cons]

theorem replaceFrom_match (old new s : List Char) (hne : old ≠ []) (h : old <+: s) :
    replaceFrom old new 0 s = new ++ replaceFrom old new 0 (s.drop old.length) := by
  cases s with
  | nil => exact absurd (List.prefix_nil.mp h) hne
  | cons c cs =>
    have hp : old.isPrefixOf (c :: cs) = true := List.isPrefixOf_iff_prefix.mpr h
    have hlen : old.length = (old.length - 1) + 1 := by
      have := List.length_pos.mpr hne
      omega
    rw [replaceFrom, if_pos hp, replaceFrom_skip]
    conv_rhs => rw [hlen, List.drop_succ_cons]

theorem replaceFrom_nomatch (old new : List Char) (c : Char) (cs : List Char)
    (h : ¬ old <+: c :: cs) :
    replaceFrom old new 0 (c :: cs) = c :: replaceFrom old new 0 cs := by
  have hp : ¬ old.isPrefixOf (c :: cs) = true := fun hc => h (List.isPrefixOf_iff_prefix.mp hc)
  rw [replaceFrom, if_neg hp]

theorem MatchString_iff (lit s : List Char) : MatchString lit s = true ↔ lit <:+: s := by
  induction s with
  | nil =>
    simp only [MatchString, List.isPrefixOf_iff_prefix, List.prefix_nil, List.infix_nil]
  | cons c cs ih =>
    simp only [MatchString, Bool.or_eq_true, List.isPrefixOf_iff_prefix, ih,
      List.infix_cons_iff]

theorem overlapFree_spec (a b : List Char) (h : overlapFree a b = true)
    (y : List Char) (hy : y ≠ []) (hs : y <:+ a) : ¬ y <+: b ∧ ¬ b <+: y := by
  unfold overlapFree at h
  rw [List.all_eq_true] at h
  have := h y ((List.mem_tails y a).mpr hs)
  simp only [Bool.or_eq_true, List.isEmpty_iff, hy, false_or, Bool.and_eq_true,
    Bool.not_eq_true', ← Bool.not_eq_true, List.isPrefixOf_iff_prefix] at this
  exact this

theorem borderFree_spec (a : List Char) (h : borderFree a = true)
    (y : List Char) (hy : y ≠ []) (hs : y <:+ a.tail) : ¬ y <+: a := by
  unfold borderFree at h
  rw [List.all_eq_true] at h
  have := h y ((List.mem_tails y a.tail).mpr hs)
  simp only [Bool.or_eq_true, List.isEmpty_iff, hy, false_or,
    Bool.not_eq_true', ← Bool.not_eq_true, List.isPrefixOf_iff_prefix] at this
  exact this

/-- A prefix of `x ++ w` is a prefix of `x`, or is `x` followed by a
non-empty prefix of `w`. -/
theorem prefix_append_cases (p x w : List Char) (h : p <+: x ++ w) :
    p <+: x ∨ ∃ y, y ≠ [] ∧ p = x ++ y ∧ y <+: w := by
  rcases List.prefix_or_prefix_of_prefix h (List.prefix_append x w) with h1 | ⟨y, hy⟩
  · exact Or.inl h1
  · by_cases hne : y = []
    · left
      rw [← hy, hne, List.append_nil]
    · right
      refine ⟨y, hne, hy.symm, ?_⟩
      rw [← hy] at h
      exact (List.prefix_append_right_inj x).mp h

/-- An occurrence in `r ++ w` starts inside `r` or lies in `w`. -/
theorem infix_append_cases (p r w : List Char) (h : p <:+: r ++ w) :
    (∃ r', r' ≠ [] ∧ r' <:+ r ∧ p <+: r' ++ w) ∨ p <:+: w := by
  induction r with
  | nil => exact Or.inr h
  | cons a r ih =>
    rw [List.cons_append, List.infix_cons_iff] at h
    rcases h with h | h
    · exact Or.inl ⟨a :: r, by simp, List.suffix_refl _, h⟩
    · rcases ih h with ⟨r', hne, hsuf, hp⟩ | h'
      · exact Or.inl ⟨r', hne, hsuf.trans (List.suffix_cons a r), hp⟩
      · exact Or.inr h'

/-- An occurrence at the head of `x ++ (replaced s)` is an occurrence at the
head of `x ++ s`: replacing does not create a match that starts in copied
text. -/
theorem prefix_replaceFrom (old new : List Char) (hA : overlapFree old new = true)
    (s x : List Char) (h : old <+: x ++ replaceFrom old new 0 s) : old <+: x ++ s := by
  induction s generalizing x with
  | nil => simpa [replaceFrom] using h
  | cons c cs ih =>
    by_cases hm : old <+: c :: cs
    · by_cases hne : old = []
      · rw [hne]
        exact List.nil_prefix
      rw [replaceFrom_match old new _ hne hm] at h
      rcases prefix_append_cases _ _ _ h with h1 | ⟨y, hy, hxy, hpre⟩
      · exact h1.trans (List.prefix_append _ _)
      · exfalso
        have hsuf : y <:+ old := ⟨x, hxy.symm⟩
        have hA' := overlapFree_spec old new hA y hy hsuf
        rcases List.prefix_or_prefix_of_prefix hpre (List.prefix_append new _) with h2 | h2
        · exact hA'.1 h2
        · exact hA'.2 h2
    · rw [replaceFrom_nomatch old new c cs hm] at h
      have h' : old <+: (x ++ [c]) ++ replaceFrom old new 0 cs := by
        simpa using h
      simpa using ih (x ++ [c]) h'

/-- The replaced text contains no occurrence of the literal. -/
theorem not_infix_replaceFrom (old new : List Char) (hne : old ≠ [])
    (hA : overlapFree old new = true) (hB : overlapFree new old = true) :
    ∀ (n : Nat) (s : List Char), s.length ≤ n → ¬ old <:+: replaceFrom old new 0 s := by
  intro n
  induction n with
  | zero =>
    intro s hs h
    have : s = [] := List.length_eq_zero.mp (Nat.le_zero.mp hs)
    subst this
    simp [replaceFrom] at h
    exact hne h
  | succ n ih =>
    intro s hs h
    cases s with
    | nil =>
      simp [replaceFrom] at h
      exact hne h
    | cons c cs =>
      by_cases hm : old <+: c :: cs
      · rw [replaceFrom_match old new _ hne hm] at h
        have hlen : ((c :: cs).drop old.length).length ≤ n := by
          have := List.length_pos.mpr hne
          simp only [List.length_drop, List.length_cons] at hs ⊢
          omega
        rcases infix_append_cases _ _ _ h with ⟨r', hr', hsuf, hp⟩ | h'
        · have hB' := overlapFree_spec new old hB r' hr' hsuf
          rcases List.prefix_or_prefix_of_prefix hp (List.prefix_append r' _) with h2 | h2
          · exact hB'.2 h2
          · exact hB'.1 h2
        · exact ih _ hlen h'
      · rw [replaceFrom_nomatch old new c cs hm, List.infix_cons_iff] at h
        rcases h with h | h
        · exact hm (by simpa using prefix_replaceFrom old new hA cs [c] (by simpa using h))
        · exact ih cs (by simpa using hs) h

/-- Text without an occurrence, followed by nothing or by an occurrence, is
copied as it is. -/
theorem replaceFrom_append_free (old new : List Char)
    (hC : borderFree old = true) (w : List Char) (hw : w = [] ∨ old <+: w) :
    ∀ u : List Char, ¬ old <:+: u →
      replaceFrom old new 0 (u ++ w) = u ++ replaceFrom old new 0 w := by
  intro u
  induction u with
  | nil => intro _; rfl
  | cons c u ih =>
    intro hfree
    have hfree' : ¬ old <:+: u := fun h => hfree (List.infix_cons_iff.mpr (Or.inr h))
    have hm : ¬ old <+: c :: (u ++ w) := by
      intro h
      rcases prefix_append_cases old (c :: u) w (by simpa using h) with h1 | ⟨y, hy, hxy, hpre⟩
      · exact hfree h1.isInfix
      · rcases hw with hw | hw
        · rw [hw] at hpre
          exact hy (List.prefix_nil.mp hpre)
        · have hsuf : y <:+ old.tail := by
            rw [hxy]
            exact ⟨u, rfl⟩
          have hlen : y.length ≤ old.length := by
            rw [hxy]
            simp only [List.length_append, List.length_cons]
            omega
          exact borderFree_spec old hC y hy hsuf
            (List.prefix_of_prefix_length_le hpre hw hlen)
    rw [List.cons_append, replaceFrom_nomatch old new c _ hm, ih hfree', List.cons_append]

theorem replaceFrom_joinSegments (old new : List Char) (hne : old ≠ [])
    (hC : borderFree old = true) (vs : List (List Char)) :
    ∀ u : List Char, ¬ old <:+: u → (∀ v ∈ vs, ¬ old <:+: v) →
      replaceFrom old new 0 (joinSegments old u vs) = joinSegments new u vs := by
  induction vs with
  | nil =>
    intro u hu _
    have := replaceFrom_append_free old new hC [] (Or.inl rfl) u hu
    simpa [joinSegments, replaceFrom] using this
  | cons v vs ih =>
    intro u hu hvs
    have hv : ¬ old <:+: v := hvs v (List.mem_cons_self _ _)
    have hvs' : ∀ v' ∈ vs, ¬ old <:+: v' := fun v' h => hvs v' (List.mem_cons_of_mem _ h)
    simp only [joinSegments, List.append_assoc]
    rw [replaceFrom_append_free old new hC _ (Or.inr (List.prefix_append _ _)) u hu,
      replaceFrom_match old new _ hne (List.prefix_append _ _), List.drop_left, ih v hv hvs']

theorem prefix_joinSegments (sep u : List Char) (vs : List (List Char)) :
    u <+: joinSegments sep u vs := by
  cases vs with
  | nil => exact List.prefix_refl u
  | cons v vs =>
    simp only [joinSegments, List.append_assoc]
    exact List.prefix_append _ _

/-- Every text is cut by the occurrences of the literal into segments
without an occurrence. -/
theorem exists_segments (old : List Char) (hne : old ≠ []) :
    ∀ (n : Nat) (s : List Char), s.length ≤ n →
      ∃ u vs, s = joinSegments old u vs ∧ ¬ old <:+: u ∧ ∀ v ∈ vs, ¬ old <:+: v := by
  intro n
  induction n with
  | zero =>
    intro s hs
    have : s = [] := List.length_eq_zero.mp (Nat.le_zero.mp hs)
    subst this
    exact ⟨[], [], rfl, by simpa using hne, by simp⟩
  | succ n ih =>
    intro s hs
    cases s with
    | nil => exact ⟨[], [], rfl, by simpa using hne, by simp⟩
    | cons c cs =>
      by_cases hm : old <+: c :: cs
      · obtain ⟨t, ht⟩ := hm
        have hlen : t.length ≤ n := by
          have h1 := congrArg List.length ht
          have := List.length_pos.mpr hne
          simp only [List.length_append, List.length_cons] at h1 hs
          omega
        obtain ⟨u, vs, hj, hu, hvs⟩ := ih t hlen
        refine ⟨[], u :: vs, ?_, by simpa using hne, ?_⟩
        · rw [← ht, hj]
          simp [joinSegments]
        · intro v hv
          rcases List.mem_cons.mp hv with h1 | h1
          · rw [h1]; exact hu
          · exact hvs v h1
      · obtain ⟨u, vs, hj, hu, hvs⟩ := ih cs (by simpa using hs)
        refine ⟨c :: u, vs, ?_, ?_, hvs⟩
        · rw [hj]
          cases vs <;> simp [joinSegments]
        · intro h
          rcases List.infix_cons_iff.mp h with h1 | h1
          · apply hm
            obtain ⟨t, ht⟩ := prefix_joinSegments old u vs
            rw [hj, ← ht]
            exact h1.trans ⟨t, rfl⟩
          · exact hu h1

theorem reParamSwap_conditions :
    reParamSwap.data ≠ []
      ∧ overlapFree reParamSwap.data extVarParams.data = true
      ∧ overlapFree extVarParams.data reParamSwap.data = true
      ∧ borderFree reParamSwap.data = true := by
  refine ⟨by decide, by decide, by decide, by decide⟩

theorem upgradeParams_data (envName d : String) :
    (upgradeParams envName d).1.data
      = replaceFrom reParamSwap.data extVarParams.data 0 d.data := by
  obtain ⟨hne, _, _, hC⟩ := reParamSwap_conditions
  unfold upgradeParams
  by_cases h : MatchString reParamSwap.data d.data = true
  · rw [if_pos h]
    rfl
  · rw [if_neg h]
    have hfree : ¬ reParamSwap.data <:+: d.data := fun hc => h ((MatchString_iff _ _).mpr hc)
    have := replaceFrom_joinSegments reParamSwap.data extVarParams.data hne hC [] d.data
      hfree (by simp)
    simpa [joinSegments] using this.symm

/-- C7: `upgradeParams(env, d)` is `d` with every occurrence of the literal
`import "../../components/params.libsonnet"` replaced by
`std.extVar("__ksonnet/params")`: however `d` is cut at occurrences of the
literal into segments free of it, the result is the same segments joined by
the replacement text, and every `d` can be cut so; the result contains no
occurrence of the literal; a document without the literal is returned
unchanged. -/
theorem upgradeParams_rewrite (envName d : String) :
    (∀ u vs, d.data = joinSegments reParamSwap.data u vs →
        ¬ reParamSwap.data <:+: u → (∀ v ∈ vs, ¬ reParamSwap.data <:+: v) →
        (upgradeParams envName d).1.data = joinSegments extVarParams.data u vs)
      ∧ (∃ u vs, d.data = joinSegments reParamSwap.data u vs
          ∧ ¬ reParamSwap.data <:+: u ∧ ∀ v ∈ vs, ¬ reParamSwap.data <:+: v)
      ∧ ¬ reParamSwap.data <:+: (upgradeParams envName d).1.data
      ∧ (¬ reParamSwap.data <:+: d.data → (upgradeParams envName d).1 = d) := by
  obtain ⟨hne, hA, hB, hC⟩ := reParamSwap_conditions
  refine ⟨?_, exists_segments _ hne _ d.data (Nat.le_refl _), ?_, ?_⟩
  · intro u vs hd hu hvs
    rw [upgradeParams_data, hd]
    exact replaceFrom_joinSegments _ _ hne hC vs u hu hvs
  · rw [upgradeParams_data]
    exact not_infix_replaceFrom _ _ hne hA hB _ d.data (Nat.le_refl _)
  · intro hfree
    have h : ¬ MatchString reParamSwap.data d.data = true :=
      fun hc => hfree ((MatchString_iff _ _).mp hc)
    unfold upgradeParams
    rw [if_neg h]

theorem upgradeParams_rewrite_witness :
    twoImports.data = joinSegments reParamSwap.data "local a = ".data
        [";\nlocal b = ".data, ";\na + b".data]
      ∧ (upgradeParams "default" twoImports).1.data
          = joinSegments extVarParams.data "local a = ".data
              [";\nlocal b = ".data, ";\na + b".data]
      ∧ (upgradeParams "default" "{ }").1 = "{ }" :=
  ⟨by decide,
    (upgradeParams_rewrite "default" twoImports).1 _ _ (by decide)
      (fun h => by
        have := (MatchString_iff _ _).mpr h
        revert this
        decide)
      (fun v hv h => by
        have hm := (MatchString_iff _ _).mpr h
        simp only [List.mem_cons, List.mem_singleton, List.not_mem_nil, or_false] at hv
        rcases hv with hv | hv <;> subst hv <;> revert hm <;> decide),
    (upgradeParams_rewrite "default" "{ }").2.2.2 (fun h => by
        have := (MatchString_iff _ _).mpr h
        revert this
        decide)⟩

/-! ## Warnings of the legacy rewrite -/

/-- C8, as the code has it: `upgradeParams` logs exactly one warning, naming
the environment, when the document contains the legacy import literal at
least once, however many occurrences there are, and logs nothing when the
document does not contain the literal. -/
theorem upgradeParams_warnings (envName d : String) :
    (reParamSwap.data <:+: d.data →
        (upgradeParams envName d).2
          = [⟨"warning", "rewriting %q environment params to not use relative paths",
              [envName]⟩]
        ∧ (upgradeParams envName d).2.length = 1)
      ∧ (¬ reParamSwap.data <:+: d.data → (upgradeParams envName d).2 = []) := by
  constructor
  · intro h
    have hm : MatchString reParamSwap.data d.data = true := (MatchString_iff _ _).mpr h
    unfold upgradeParams
    rw [if_pos hm]
    exact ⟨rfl, rfl⟩
  · intro h
    have hm : ¬ MatchString reParamSwap.data d.data = true :=
      fun hc => h ((MatchString_iff _ _).mp hc)
    unfold upgradeParams
    rw [if_neg hm]

theorem upgradeParams_warnings_witness :
    reParamSwap.data <:+: twoImports.data
      ∧ (upgradeParams "default" twoImports).2.length = 1 :=
  ⟨(MatchString_iff _ _).mp (by decide),
    ((upgradeParams_warnings "default" twoImports).1
      ((MatchString_iff _ _).mp (by decide))).2⟩

/-- A document with two occurrences of the legacy import literal gets one
warning, not two. -/
theorem upgradeParams_warnings_counterexample :
    countOccurrences reParamSwap.data twoImports.data = 2
      ∧ (upgradeParams "default" twoImports).2.length = 1
      ∧ (upgradeParams "default" twoImports).2.length
          ≠ countOccurrences reParamSwap.data twoImports.data := by
  decide

/-! ## The loop of `moduleObjects` -/

theorem componentLoop_acc {Text : Type} (L : Lib Text) (cm : List (String × String))
    (ng : Text) (filter : List String) (m : JMap) (ret : List JMap) :
    componentLoop L cm ng filter m ret =
      match componentLoop L cm ng filter m [] with
      | .error err => .error err
      | .ok objs => .ok (ret ++ objs) := by
  induction m generalizing ret with
  | nil => simp [componentLoop]
  | cons hd rest ih =>
    obtain ⟨name, v⟩ := hd
    simp only [componentLoop]
    split
    · exact ih ret
    · cases hc : componentObject L cm ng name v with
      | error err => rfl
      | ok uns =>
        simp only []
        rw [ih (ret ++ [uns]), ih ([] ++ [uns])]
        cases componentLoop L cm ng filter rest [] <;> simp

theorem componentObject_congr {Text : Type} (L : Lib Text) (cm cm' : List (String × String))
    (ng : Text) (name : String) (v : JVal) (h : cm.lookup name = cm'.lookup name) :
    componentObject L cm ng name v = componentObject L cm' ng name v := by
  unfold componentObject patchedDocument
  rw [h]

theorem sublist_flatMap {α β : Type} (f : α → List β) {l₁ l₂ : List α} (h : l₁.Sublist l₂) :
    (l₁.flatMap f).Sublist (l₂.flatMap f) := by
  induction h with
  | slnil => exact List.Sublist.refl _
  | cons a _ ih =>
    rw [List.flatMap_cons]
    exact ih.trans (List.sublist_append_right _ _)
  | cons₂ a _ ih =>
    rw [List.flatMap_cons, List.flatMap_cons]
    exact List.Sublist.append (List.Sublist.refl _) ih

theorem componentLoop_unmarshal {Text : Type} (L : Lib Text)
    (unmarshal : Text → Except GoError JMap) (cm : List (String × String)) (ng : Text)
    (filter : List String) (m : JMap) (ret : List JMap) :
    componentLoop { L with Unmarshal := unmarshal } cm ng filter m ret
      = componentLoop L cm ng filter m ret := by
  induction m generalizing ret with
  | nil => rfl
  | cons hd rest ih =>
    obtain ⟨name, v⟩ := hd
    have hobj : componentObject { L with Unmarshal := unmarshal } cm ng name v
        = componentObject L cm ng name v := rfl
    simp only [componentLoop, hobj, ih]

/-- A successful unfiltered run of the loop decodes every entry. -/
theorem componentLoop_ok_entries {Text : Type} (L : Lib Text) (cm : List (String × String))
    (ng : Text) (m : JMap) :
    ∀ objs, componentLoop L cm ng [] m [] = .ok objs →
      ∀ e ∈ m, ∃ uns, componentObject L cm ng e.1 e.2 = .ok uns := by
  induction m with
  | nil =>
    intro _ _ e he
    cases he
  | cons hd rest ih =>
    obtain ⟨name, v⟩ := hd
    intro objs h e he
    simp only [componentLoop, List.length_nil, ne_eq, not_true_eq_false, false_and,
      if_false] at h
    cases hc : componentObject L cm ng name v with
    | error err => simp [hc] at h
    | ok uns =>
      simp only [hc] at h
      rw [componentLoop_acc] at h
      cases hr : componentLoop L cm ng [] rest [] with
      | error err => simp [hr] at h
      | ok objs' =>
        rcases List.mem_cons.mp he with h1 | h1
        · subst h1
          exact ⟨uns, hc⟩
        · exact ih objs' hr e h1

/-- The loop over entries that all decode, in whatever order they are
visited: the decoded objects of the entries the filter keeps, in that order. -/
theorem componentLoop_of_entries {Text : Type} (L : Lib Text) (cm : List (String × String))
    (ng : Text) (filter : List String) (g : String × JVal → JMap) (m : JMap)
    (h : ∀ e ∈ m, (filter.length = 0 ∨ InSlice e.1 filter = true) →
      componentObject L cm ng e.1 e.2 = .ok (g e)) :
    componentLoop L cm ng filter m []
      = .ok ((m.filter (fun e => decide (filter.length = 0) || InSlice e.1 filter)).map g) := by
  induction m with
  | nil => rfl
  | cons hd rest ih =>
    obtain ⟨name, v⟩ := hd
    have hrest := ih (fun e he => h e (List.mem_cons_of_mem _ he))
    by_cases hkeep : filter.length = 0 ∨ InSlice name filter = true
    · have hskip : ¬ (filter.length ≠ 0 ∧ InSlice name filter = false) := by
        rcases hkeep with h1 | h1
        · simp [h1]
        · simp [h1]
      have hk : (decide (filter.length = 0) || InSlice name filter) = true := by
        rcases hkeep with h1 | h1
        · simp [h1]
        · simp [h1]
      have hf : List.filter (fun e : String × JVal =>
            decide (filter.length = 0) || InSlice e.1 filter) ((name, v) :: rest)
          = (name, v) :: List.filter (fun e : String × JVal =>
            decide (filter.length = 0) || InSlice e.1 filter) rest :=
        List.filter_cons_of_pos hk
      simp only [componentLoop, if_neg hskip, h (name, v) (List.mem_cons_self _ _) hkeep]
      rw [componentLoop_acc, hrest, hf]
      rfl
    · have hskip : filter.length ≠ 0 ∧ InSlice name filter = false := by
        simp only [not_or] at hkeep
        exact ⟨hkeep.1, by simpa using hkeep.2⟩
      have hk : (decide (filter.length = 0) || InSlice name filter) = false := by
        simp [hskip.1, hskip.2]
      have hf : List.filter (fun e : String × JVal =>
            decide (filter.length = 0) || InSlice e.1 filter) ((name, v) :: rest)
          = List.filter (fun e : String × JVal =>
            decide (filter.length = 0) || InSlice e.1 filter) rest :=
        List.filter_cons_of_neg (by rw [hk]; exact Bool.false_ne_true)
      simp only [componentLoop, if_pos hskip, hrest, hf]

/-- C4, as the code has it: take an evaluator result, a non-empty filter `F`
and kind side-tables that agree on the names in `F`; the build under `F` and
the build under the empty filter may visit the entries of the evaluator
result in different orders (`mF` and `mAll` are two orders of the same map,
the first that of a library differing in the order `json.Unmarshal` and
`range` give).  Whenever the build of the module under the empty filter
succeeds, it yields the objects of every entry, and the build under `F`
succeeds and yields exactly the objects of the entries whose component name
is in `F`: a subset of the unfiltered objects, also counted with
multiplicity, to which a component not named in `F` contributes nothing. -/
theorem moduleObjects_filter {Text : Type} (L : Lib Text)
    (unmarshalF : Text → Except GoError JMap) (p : Pipeline Text)
    (module : Module Text) (F : List String) (cmF cmAll : List (String × String))
    (ng : Text) (mF mAll : JMap) (hF : F ≠ [])
    (hcm : ∀ n, InSlice n F = true → cmF.lookup n = cmAll.lookup n)
    (hresF : evaluatorResult { L with Unmarshal := unmarshalF } p module F
      = .ok (cmF, ng, mF))
    (hresAll : evaluatorResult L p module [] = .ok (cmAll, ng, mAll))
    (hperm : mF.Perm mAll) :
    ∀ all, moduleObjects L p module [] = .ok all →
      ∃ objectsOf : String × JVal → List JMap,
        (∀ e ∈ mAll, ∃ uns, componentObject L cmAll ng e.1 e.2 = .ok uns
            ∧ objectsOf e = flattenObject uns)
          ∧ all = mAll.flatMap objectsOf
          ∧ moduleObjects { L with Unmarshal := unmarshalF } p module F
              = .ok ((mF.filter (fun e => decide (e.1 ∈ F))).flatMap objectsOf)
          ∧ (mF.filter (fun e => decide (e.1 ∈ F))).flatMap objectsOf ⊆ all
          ∧ List.Subperm ((mF.filter (fun e => decide (e.1 ∈ F))).flatMap objectsOf) all := by
  intro all hall
  have hlen : F.length ≠ 0 := fun h => hF (List.length_eq_zero.mp h)
  unfold moduleObjects at hall ⊢
  rw [hresAll] at hall
  rw [hresF]
  simp only [] at hall ⊢
  cases hl : componentLoop L cmAll ng [] mAll [] with
  | error err => simp [hl] at hall
  | ok objs =>
    have hentries := componentLoop_ok_entries L cmAll ng mAll objs hl
    let g : String × JVal → JMap := fun e =>
      match componentObject L cmAll ng e.1 e.2 with
      | .ok uns => uns
      | .error _ => []
    have hg : ∀ e ∈ mAll, componentObject L cmAll ng e.1 e.2 = .ok (g e) := by
      intro e he
      obtain ⟨uns, huns⟩ := hentries e he
      simp only [g, huns]
    have hallLoop : componentLoop L cmAll ng [] mAll [] = .ok (mAll.map g) := by
      have := componentLoop_of_entries L cmAll ng [] g mAll (fun e he _ => hg e he)
      simpa using this
    have hselLoop : componentLoop L cmF ng F mF []
        = .ok ((mF.filter (fun e => decide (e.1 ∈ F))).map g) := by
      have := componentLoop_of_entries L cmF ng F g mF (by
        intro e he hkeep
        rcases hkeep with h1 | h1
        · exact absurd h1 hlen
        · rw [componentObject_congr L cmF cmAll ng e.1 e.2 (hcm e.1 h1)]
          exact hg e (hperm.mem_iff.mp he))
      rw [this]
      congr 2
      apply List.filter_congr
      intro e _
      rw [Bool.eq_iff_iff]
      simp [hlen, InSlice_iff]
    have hall' : all = mAll.flatMap (fun e => flattenObject (g e)) := by
      rw [hallLoop] at hall
      simp only [FlattenToV1, Except.ok.injEq] at hall
      rw [← hall]
      simp [List.flatMap_def, List.map_map, Function.comp_def]
    have hsub : List.Subperm
        ((mF.filter (fun e => decide (e.1 ∈ F))).flatMap (fun e => flattenObject (g e)))
        all := by
      rw [hall']
      exact (sublist_flatMap _ (List.filter_sublist _)).subperm.trans
        (List.Perm.flatMap_right _ hperm).subperm
    refine ⟨fun e => flattenObject (g e), ?_, hall', ?_, hsub.subset, hsub⟩
    · intro e he
      exact ⟨g e, hg e he, rfl⟩
    · rw [componentLoop_unmarshal, hselLoop]
      simp [FlattenToV1, List.flatMap_def, List.map_map, Function.comp_def]

theorem moduleObjects_filter_witness :
    (twoObjects.reverse).Perm twoObjects
      ∧ moduleObjects { exampleLib with Unmarshal := reversedUnmarshal }
          (examplePipeline [] twoObjects) (exampleModule []) ["a"]
          = .ok [labelledConfigMap]
      ∧ ∃ objectsOf : String × JVal → List JMap,
          moduleObjects { exampleLib with Unmarshal := reversedUnmarshal }
              (examplePipeline [] twoObjects) (exampleModule []) ["a"]
            = .ok ((twoObjects.reverse.filter (fun e => decide (e.1 ∈ ["a"]))).flatMap
                objectsOf)
          ∧ (twoObjects.reverse.filter (fun e => decide (e.1 ∈ ["a"]))).flatMap objectsOf
              ⊆ twoObjects.flatMap objectsOf :=
  ⟨List.reverse_perm _, rfl,
    let ⟨objectsOf, _, h2, h3, h4, _⟩ :=
      moduleObjects_filter exampleLib reversedUnmarshal (examplePipeline [] twoObjects)
        (exampleModule []) ["a"] [] [] (.source "{ components: { } }")
        twoObjects.reverse twoObjects (by decide) (fun _ _ => rfl) rfl rfl
        (List.reverse_perm _) _ rfl
    ⟨objectsOf, h3, h2 ▸ h4⟩⟩

/-- With the filter `["a"]` the build yields the object of `a`, while the
build under the empty filter fails on the entry `b` and yields nothing: the
filtered objects are not among the unfiltered ones. -/
theorem moduleObjects_filter_counterexample :
    moduleObjects exampleLib (examplePipeline [] mixedResult) (exampleModule []) ["a"]
        = .ok [labelledConfigMap]
      ∧ moduleObjects exampleLib (examplePipeline [] mixedResult) (exampleModule []) []
        = .error (.errorf "component %q is not an object" ["b"]) :=
  ⟨rfl, rfl⟩

/-! ## Component kinds -/

theorem patchedDocument_native {Text : Type} (L : Lib Text) (cm : List (String × String))
    (ng : Text) (name : String) (data : Text)
    (hk : cm.lookup name = none ∨ cm.lookup name = some "jsonnet") :
    patchedDocument L cm ng name data = .ok data := by
  unfold patchedDocument
  rcases hk with hk | hk <;> simp [hk]

theorem componentLoop_native {Text : Type} (L : Lib Text) (cm : List (String × String))
    (ng : Text) (filter : List String) (patch : Text → Text → String → Except GoError Text)
    (m : JMap)
    (hk : ∀ e ∈ m, cm.lookup e.1 = none ∨ cm.lookup e.1 = some "jsonnet") (ret : List JMap) :
    componentLoop { L with PatchJSON := patch } cm ng filter m ret
      = componentLoop L cm ng filter m ret := by
  induction m generalizing ret with
  | nil => rfl
  | cons hd rest ih =>
    obtain ⟨name, v⟩ := hd
    have hrest : ∀ e ∈ rest, cm.lookup e.1 = none ∨ cm.lookup e.1 = some "jsonnet" :=
      fun e he => hk e (List.mem_cons_of_mem _ he)
    have hobj : componentObject { L with PatchJSON := patch } cm ng name v
        = componentObject L cm ng name v := by
      cases v with
      | obj o =>
        simp only [componentObject,
          patchedDocument_native _ cm ng name _ (hk (name, .obj o) (List.mem_cons_self _ _))]
      | _ => rfl
    simp only [componentLoop, hobj, ih hrest]

/-- C9, as the code has it: for an entry of the evaluator result whose kind
in the side-table of `Render` is `jsonnet`, or whose component name has no
kind entry there, `moduleObjects` uses native-template handling: the
document handed to the decoder is the encoded labelled object of the entry,
and `params.PatchJSON` has no part in it, so a build whose entries are all
of this kind does not depend on `PatchJSON`. -/
theorem moduleObjects_native {Text : Type} (L : Lib Text) (cm : List (String × String))
    (ng : Text) (name : String) (o : JMap)
    (hk : cm.lookup name = none ∨ cm.lookup name = some "jsonnet") :
    (∀ data, patchedDocument L cm ng name data = .ok data)
      ∧ componentObject L cm ng name (.obj o) =
          (match L.Marshal (labelComponents o name) with
            | .error err => .error err
            | .ok data =>
              match L.Decode data with
              | .error err => .error (.wrap err "decoding unstructured")
              | .ok uns => .ok uns)
      ∧ (∀ (p : Pipeline Text) (module : Module Text) (filter : List String) (m : JMap)
          (patch : Text → Text → String → Except GoError Text),
          evaluatorResult L p module filter = .ok (cm, ng, m) →
          (∀ e ∈ m, cm.lookup e.1 = none ∨ cm.lookup e.1 = some "jsonnet") →
          moduleObjects { L with PatchJSON := patch } p module filter
            = moduleObjects L p module filter) := by
  refine ⟨fun data => patchedDocument_native L cm ng name data hk, ?_, ?_⟩
  · simp only [componentObject, patchedDocument_native L cm ng name _ hk]
  · intro p module filter m patch hres hall
    have hres' : evaluatorResult { L with PatchJSON := patch } p module filter
        = .ok (cm, ng, m) := hres
    unfold moduleObjects
    rw [hres, hres']
    simp only [componentLoop_native L cm ng filter patch m hall]

theorem moduleObjects_native_witness :
    (([] : List (String × String)).lookup "a" = none
        ∨ ([] : List (String × String)).lookup "a" = some "jsonnet")
      ∧ componentObject exampleLib [] (.source "{ }") "a" (.obj exampleConfigMap)
          = .ok labelledConfigMap
      ∧ patchedDocument exampleLib [] (.source "{ }") "a" (.json labelledConfigMap)
          = .ok (.json labelledConfigMap) :=
  ⟨Or.inl rfl,
    ((moduleObjects_native exampleLib [] (.source "{ }") "a" exampleConfigMap
      (Or.inl rfl)).2.1).trans rfl,
    (moduleObjects_native exampleLib [] (.source "{ }") "a" exampleConfigMap
      (Or.inl rfl)).1 _⟩

/-- An entry whose kind in the side-table is `json`, which is not the
raw-document kind `yaml`, is not handled as a native template: the decoder
is handed the empty text and the build of the module fails. -/
theorem moduleObjects_native_counterexample :
    patchedDocument exampleLib [("a", "json")] (.source "{ }") "a" (.json labelledConfigMap)
        = .ok (.source "")
      ∧ moduleObjects exampleLib (examplePipeline [("a", "json")] [("a", .obj exampleConfigMap)])
          (exampleModule [("a", "json")]) []
        = .error (.wrap (.external "couldn't get version/kind; json parse error")
            "decoding unstructured") :=
  ⟨rfl, rfl⟩

/-! ## Entries that are not objects -/

theorem componentLoop_append {Text : Type} (L : Lib Text) (cm : List (String × String))
    (ng : Text) (filter : List String) (pre post : JMap) (ret : List JMap) :
    componentLoop L cm ng filter (pre ++ post) ret =
      match componentLoop L cm ng filter pre ret with
      | .error err => .error err
      | .ok objs => componentLoop L cm ng filter post objs := by
  induction pre generalizing ret with
  | nil => rfl
  | cons hd rest ih =>
    obtain ⟨name, v⟩ := hd
    simp only [List.cons_append, componentLoop]
    split
    · exact ih ret
    · cases componentObject L cm ng name v with
      | error err => rfl
      | ok uns => exact ih _

theorem componentObject_not_object {Text : Type} (L : Lib Text) (cm : List (String × String))
    (ng : Text) (name : String) (v : JVal) (hv : ∀ o, v ≠ .obj o) :
    componentObject L cm ng name v
      = .error (.errorf "component %q is not an object" [name]) := by
  cases v with
  | obj o => exact absurd rfl (hv o)
  | _ => rfl

/-- C10, as the code has it: when an entry of the evaluator result that the
filter selects (the filter is empty or names the component) is not an
object, `moduleObjects` returns an error and no objects; the error is
`component %q is not an object` with that component's name when no entry
visited before it fails. -/
theorem moduleObjects_not_object {Text : Type} (L : Lib Text) (p : Pipeline Text)
    (module : Module Text) (filter : List String) (cm : List (String × String)) (ng : Text)
    (pre post : JMap) (name : String) (v : JVal)
    (hres : evaluatorResult L p module filter = .ok (cm, ng, pre ++ (name, v) :: post))
    (hv : ∀ o, v ≠ .obj o)
    (hsel : filter = [] ∨ InSlice name filter = true) :
    (∃ err, moduleObjects L p module filter = .error err)
      ∧ ((∀ err, componentLoop L cm ng filter pre [] ≠ .error err) →
          moduleObjects L p module filter
            = .error (.errorf "component %q is not an object" [name])) := by
  have hskip : ¬ (filter.length ≠ 0 ∧ InSlice name filter = false) := by
    rcases hsel with h | h
    · simp [h]
    · simp [h]
  have hstep : ∀ ret, componentLoop L cm ng filter ((name, v) :: post) ret
      = .error (.errorf "component %q is not an object" [name]) := by
    intro ret
    simp only [componentLoop, if_neg hskip, componentObject_not_object L cm ng name v hv]
  unfold moduleObjects
  rw [hres]
  simp only [componentLoop_append]
  cases hpre : componentLoop L cm ng filter pre [] with
  | error err =>
    refine ⟨⟨err, ?_⟩, fun h => ?_⟩
    · rfl
    · exact (h err rfl).elim
  | ok objs =>
    simp only [hstep]
    exact ⟨⟨_, rfl⟩, fun _ => trivial⟩

theorem moduleObjects_not_object_witness :
    moduleObjects exampleLib (examplePipeline [] mixedResult) (exampleModule []) []
      = .error (.errorf "component %q is not an object" ["b"]) :=
  (moduleObjects_not_object exampleLib (examplePipeline [] mixedResult) (exampleModule [])
    [] [] (.source "{ components: { } }") [("a", .obj exampleConfigMap)] [] "b" (.num 5)
    rfl (fun _ h => by cases h) (Or.inl rfl)).2
    (fun err h => by cases h)

/-- The entry `b` is not an object, and the build under the filter `["a"]`
returns no error. -/
theorem moduleObjects_not_object_counterexample :
    moduleObjects exampleLib (examplePipeline [] [("b", .num 5)]) (exampleModule []) ["a"]
      = .ok [] :=
  rfl

/-! ## Objects of all modules -/

theorem buildLoop_acc {Text : Type} (L : Lib Text) (p : Pipeline Text) (filter : List String)
    (modules : List (Module Text)) (ret : List JMap) :
    buildLoop L p filter modules ret =
      match buildLoop L p filter modules [] with
      | .error err => .error err
      | .ok objs => .ok (ret ++ objs) := by
  induction modules generalizing ret with
  | nil => simp [buildLoop]
  | cons m rest ih =>
    simp only [buildLoop]
    cases moduleObjects L p m filter with
    | error err => rfl
    | ok objects =>
      simp only []
      rw [ih (ret ++ objects), ih ([] ++ objects)]
      cases buildLoop L p filter rest [] <;> simp

theorem buildLoop_ok {Text : Type} (L : Lib Text) (p : Pipeline Text) (filter : List String)
    (modules : List (Module Text)) (per : List (List JMap))
    (h : List.Forall₂ (fun m objs => moduleObjects L p m filter = .ok objs) modules per) :
    buildLoop L p filter modules [] = .ok per.flatten := by
  induction h with
  | nil => rfl
  | cons hm _ ih =>
    simp only [buildLoop, hm]
    rw [buildLoop_acc, ih]
    simp

theorem buildLoop_error {Text : Type} (L : Lib Text) (p : Pipeline Text) (filter : List String)
    (modules : List (Module Text))
    (h : ∃ m ∈ modules, ∃ err, moduleObjects L p m filter = .error err) :
    ∃ m ∈ modules, ∃ err, moduleObjects L p m filter = .error err
      ∧ buildLoop L p filter modules [] = .error err := by
  induction modules with
  | nil =>
    obtain ⟨m, hm, _⟩ := h
    cases hm
  | cons m rest ih =>
    cases hmo : moduleObjects L p m filter with
    | error err =>
      refine ⟨m, List.mem_cons_self _ _, err, hmo, ?_⟩
      simp only [buildLoop, hmo]
    | ok objects =>
      have hrest : ∃ m' ∈ rest, ∃ err, moduleObjects L p m' filter = .error err := by
        obtain ⟨m', hm', err, herr⟩ := h
        rcases List.mem_cons.mp hm' with h1 | h1
        · subst h1
          rw [hmo] at herr
          cases herr
        · exact ⟨m', h1, err, herr⟩
      obtain ⟨m', hm', err, herr, hloop⟩ := ih hrest
      refine ⟨m', List.mem_cons_of_mem _ hm', err, herr, ?_⟩
      simp only [buildLoop, hmo]
      rw [buildLoop_acc, hloop]

/-- C11: `Objects` is all-or-nothing and order-preserving across modules.
When the module listing fails, `buildObjects` returns that error wrapped and
no objects; when the build of some listed module fails, it returns the
error of a failing module and no objects; and when every module builds, it
returns exactly the concatenation of the per-module object lists in the
order of the module list. -/
theorem buildObjects_all_or_nothing {Text : Type} (L : Lib Text) (p : Pipeline Text)
    (filter : List String) :
    Objects (buildObjects L) p filter = buildObjects L p filter
      ∧ (∀ err, p.Modules = .error err →
          buildObjects L p filter = .error (.wrap err "get modules"))
      ∧ (∀ modules, p.Modules = .ok modules →
          ((∃ m ∈ modules, ∃ err, moduleObjects L p m filter = .error err) →
            ∃ m ∈ modules, ∃ err, moduleObjects L p m filter = .error err
              ∧ buildObjects L p filter = .error err)
          ∧ (∀ per : List (List JMap),
              List.Forall₂ (fun m objs => moduleObjects L p m filter = .ok objs) modules per →
              buildObjects L p filter = .ok per.flatten)) := by
  refine ⟨rfl, ?_, ?_⟩
  · intro err h
    unfold buildObjects
    rw [h]
  · intro modules h
    constructor
    · intro hfail
      obtain ⟨m, hm, err, herr, hloop⟩ := buildLoop_error L p filter modules hfail
      refine ⟨m, hm, err, herr, ?_⟩
      unfold buildObjects
      rw [h]
      exact hloop
    · intro per hper
      unfold buildObjects
      rw [h]
      exact buildLoop_ok L p filter modules per hper

theorem buildObjects_all_or_nothing_witness :
    buildObjects exampleLib
        (twoModulePipeline [("a", .obj exampleConfigMap)] [("s", .obj exampleSecret)]) []
        = .ok [labelledConfigMap, labelledSecret]
      ∧ (∃ err, buildObjects exampleLib
          (twoModulePipeline [("a", .obj exampleConfigMap)] [("s", .num 5)]) []
          = .error err) :=
  ⟨((buildObjects_all_or_nothing exampleLib
      (twoModulePipeline [("a", .obj exampleConfigMap)] [("s", .obj exampleSecret)]) []).2.2
      _ rfl).2 [[labelledConfigMap], [labelledSecret]]
      (List.Forall₂.cons rfl (List.Forall₂.cons rfl List.Forall₂.nil)),
    let ⟨_, _, err, _, h⟩ := ((buildObjects_all_or_nothing exampleLib
      (twoModulePipeline [("a", .obj exampleConfigMap)] [("s", .num 5)]) []).2.2
      _ rfl).1 ⟨_, List.mem_cons_of_mem _ (List.mem_cons_self _ _), _, rfl⟩
    ⟨err, h⟩⟩

/-! ## Idempotence of the legacy rewrite -/

theorem upgradeParams_no_literal (envName d : String) :
    ¬ reParamSwap.data <:+: (upgradeParams envName d).1.data := by
  obtain ⟨hne, hA, hB, _⟩ := reParamSwap_conditions
  rw [upgradeParams_data]
  exact not_infix_replaceFrom _ _ hne hA hB _ d.data (Nat.le_refl _)

theorem upgradeParams_of_no_literal (envName d : String)
    (h : ¬ reParamSwap.data <:+: d.data) : upgradeParams envName d = (d, []) := by
  have hm : ¬ MatchString reParamSwap.data d.data = true :=
    fun hc => h ((MatchString_iff _ _).mp hc)
  unfold upgradeParams
  rw [if_neg hm]

/-- C16: `upgradeParams` is idempotent on the document text: the inserted
`std.extVar("__ksonnet/params")` never makes a new occurrence of the
legacy import literal, so a second pass returns the text of the first
pass unchanged and logs no warning. -/
theorem upgradeParams_idempotent (envName d : String) :
    (upgradeParams envName (upgradeParams envName d).1).1 = (upgradeParams envName d).1
      ∧ (upgradeParams envName (upgradeParams envName d).1).2 = []
      ∧ ¬ reParamSwap.data <:+: (upgradeParams envName d).1.data := by
  have hfree := upgradeParams_no_literal envName d
  rw [upgradeParams_of_no_literal envName _ hfree]
  exact ⟨rfl, rfl, hfree⟩

/-! ## Component files -/

theorem pathLoop_duplicate (name localName : String) (fis : List FileInfo) :
    ∀ (files : List String) (fileName : String),
      (¬ ((fis.filter (fun fi => !fi.IsDir)).map baseName).Nodup
        ∨ ∃ b ∈ (fis.filter (fun fi => !fi.IsDir)).map baseName, b ∈ files) →
      pathLoop name localName fis files fileName
        = .error (.errorf "Found multiple component files with component name %q" [name]) := by
  induction fis with
  | nil =>
    intro files fileName h
    simp at h
  | cons fi rest ih =>
    intro files fileName h
    by_cases hd : fi.IsDir = true
    · simp only [pathLoop, hd, if_true]
      apply ih
      simpa [List.filter_cons, hd] using h
    · have hd' : fi.IsDir = false := by simpa using hd
      simp only [pathLoop, hd', Bool.false_eq_true, if_false]
      by_cases hin : baseName fi ∈ files
      · rw [if_pos hin]
      · rw [if_neg hin]
        apply ih
        simp only [List.filter_cons, hd', Bool.not_false, if_true, List.map_cons,
          List.nodup_cons, not_and_or, not_not, List.mem_cons, exists_eq_or_imp] at h
        rcases h with (h | h) | h | ⟨b, hb, hbf⟩
        · exact Or.inr ⟨baseName fi, h, List.mem_cons_self _ _⟩
        · exact Or.inl h
        · exact absurd h hin
        · exact Or.inr ⟨b, hb, List.mem_cons_of_mem _ hbf⟩

theorem pathLoop_unique (name localName : String) (fis : List FileInfo) :
    ∀ (files : List String) (fileName : String),
      ((fis.filter (fun fi => !fi.IsDir)).map baseName).Nodup →
      (∀ b ∈ (fis.filter (fun fi => !fi.IsDir)).map baseName, b ∉ files) →
      ∃ r, pathLoop name localName fis files fileName = .ok r
        ∧ (localName ∉ (fis.filter (fun fi => !fi.IsDir)).map baseName → r = fileName)
        ∧ (∀ fi ∈ fis.filter (fun fi => !fi.IsDir), baseName fi = localName → r = fi.Name) := by
  induction fis with
  | nil =>
    intro files fileName _ _
    exact ⟨fileName, rfl, fun _ => rfl, by simp⟩
  | cons fi rest ih =>
    intro files fileName hnd hfresh
    by_cases hd : fi.IsDir = true
    · simp only [pathLoop, hd, if_true]
      have hf : (fi :: rest).filter (fun fi => !fi.IsDir) = rest.filter (fun fi => !fi.IsDir) := by
        simp [List.filter_cons, hd]
      rw [hf] at hnd hfresh ⊢
      exact ih files fileName hnd hfresh
    · have hd' : fi.IsDir = false := by simpa using hd
      have hf : (fi :: rest).filter (fun fi => !fi.IsDir)
          = fi :: rest.filter (fun fi => !fi.IsDir) := by
        simp [List.filter_cons, hd']
      rw [hf] at hnd hfresh ⊢
      simp only [List.map_cons, List.nodup_cons] at hnd
      have hin : baseName fi ∉ files := hfresh _ (by simp)
      simp only [pathLoop, hd', Bool.false_eq_true, if_false, if_neg hin]
      obtain ⟨r, hr, hnone, hsome⟩ := ih (baseName fi :: files)
        (if baseName fi = localName then fi.Name else fileName) hnd.2
        (by
          intro b hb hmem
          rcases List.mem_cons.mp hmem with h1 | h1
          · exact hnd.1 (h1 ▸ hb)
          · exact hfresh b (by simp [hb]) h1)
      refine ⟨r, hr, ?_, ?_⟩
      · intro hno
        simp only [List.map_cons, List.mem_cons, not_or] at hno
        rw [hnone hno.2, if_neg (fun h => hno.1 h.symm)]
      · intro fi' hfi' hbase
        rcases List.mem_cons.mp hfi' with h1 | h1
        · subst h1
          rw [hnone (hbase ▸ hnd.1), if_pos hbase]
        · exact hsome fi' h1 hbase

/-- C12: take the listing `fis` of the module directory.  `Path` returns the
ambiguity error when two files of the listing that are not directories have
the same name after stripping the extension; otherwise it returns the
not-found error when no such file's stripped name is the requested local
name; and otherwise it returns the module directory joined with the one file
whose stripped name is the local name (a file of a listing has a non-empty
name).  Directories are passed over throughout. -/
theorem Path_spec (Join : List String → String) (dir localName name : String)
    (fis : List FileInfo) :
    (¬ ((fis.filter (fun fi => !fi.IsDir)).map baseName).Nodup →
        Path Join dir localName (.ok fis) name
          = .error (.errorf "Found multiple component files with component name %q" [name]))
      ∧ (((fis.filter (fun fi => !fi.IsDir)).map baseName).Nodup →
          (localName ∉ (fis.filter (fun fi => !fi.IsDir)).map baseName →
            Path Join dir localName (.ok fis) name
              = .error (.errorf "No component name %q found" [name]))
          ∧ (∀ fi ∈ fis, fi.IsDir = false → baseName fi = localName → fi.Name ≠ "" →
              Path Join dir localName (.ok fis) name = .ok (Join [dir, fi.Name])
              ∧ ∀ fi' ∈ fis, fi'.IsDir = false → baseName fi' = localName → fi' = fi)) := by
  constructor
  · intro hdup
    simp only [Path, pathLoop_duplicate name localName fis [] "" (Or.inl hdup)]
  · intro hnd
    obtain ⟨r, hr, hnone, hsome⟩ := pathLoop_unique name localName fis [] "" hnd (by simp)
    constructor
    · intro hno
      simp only [Path, hr, hnone hno, if_true]
    · intro fi hfi hdir hbase hname
      have hmem : fi ∈ fis.filter (fun fi => !fi.IsDir) := by
        simp [List.mem_filter, hfi, hdir]
      constructor
      · simp only [Path, hr, hsome fi hmem hbase, if_neg hname]
      · intro fi' hfi' hdir' hbase'
        have hmem' : fi' ∈ fis.filter (fun fi => !fi.IsDir) := by
          simp [List.mem_filter, hfi', hdir']
        exact List.inj_on_of_nodup_map hnd hmem' hmem (hbase'.trans hbase.symm)

theorem Path_spec_witness :
    Path exampleJoin "components/web" "ui" (.ok exampleListing) "web/ui"
        = .ok "components/web/ui.yaml"
      ∧ Path exampleJoin "components/web" "db" (.ok exampleListing) "web/db"
        = .error (.errorf "No component name %q found" ["web/db"])
      ∧ Path exampleJoin "components/web" "api" (.ok ambiguousListing) "web/api"
        = .error (.errorf "Found multiple component files with component name %q" ["web/api"]) :=
  ⟨((((Path_spec exampleJoin "components/web" "ui" "web/ui" exampleListing).2 (by decide)).2
      ⟨"ui.yaml", false⟩ (by decide) rfl (by decide) (by decide)).1).trans
      (congrArg Except.ok (by decide)),
    ((Path_spec exampleJoin "components/web" "db" "web/db" exampleListing).2 (by decide)).1
      (by decide),
    (Path_spec exampleJoin "components/web" "api" "web/api" ambiguousListing).1 (by decide)⟩

/-! ## Setting an environment -/

/-- C14: `updateEnvSpec` replaces the destination namespace only when a new
namespace is given and the destination server only when a new server is
given, leaves everything else of the record as it was, and calls the update
function once, with the environment name, the given API spec, that record
and its override flag; when no new namespace, server or API spec is given it
returns no error, leaves the record unchanged and makes no call. -/
theorem updateEnvSpec_spec (es : EnvSet) (env : EnvironmentSpec) :
    ((es.newNsName = "" ∧ es.newServer = "" ∧ es.newAPISpec = "") →
        updateEnvSpec es env = (none, env, []))
      ∧ (¬ (es.newNsName = "" ∧ es.newServer = "" ∧ es.newAPISpec = "") →
        updateEnvSpec es env
          = (es.updateEnvFn es.envName es.newAPISpec (specUpdatedEnv es env) env.isOverride,
              specUpdatedEnv es env,
              [.update es.envName es.newAPISpec (specUpdatedEnv es env) env.isOverride]))
      ∧ (es.newNsName = "" →
          (specUpdatedEnv es env).Destination.Namespace = env.Destination.Namespace)
      ∧ (es.newServer = "" →
          (specUpdatedEnv es env).Destination.Server = env.Destination.Server)
      ∧ (es.newNsName ≠ "" → (specUpdatedEnv es env).Destination.Namespace = es.newNsName)
      ∧ (es.newServer ≠ "" → (specUpdatedEnv es env).Destination.Server = es.newServer) := by
  refine ⟨?_, ?_, ?_, ?_, ?_, ?_⟩
  · intro h
    unfold updateEnvSpec
    rw [if_pos h]
  · intro h
    unfold updateEnvSpec
    rw [if_neg h]
    have henv : (if es.newServer ≠ "" then
          ({ (if es.newNsName ≠ "" then
                ({ env with Destination := { env.Destination with Namespace := es.newNsName } }
                  : EnvironmentSpec)
              else env) with
            Destination := { (if es.newNsName ≠ "" then
                ({ env with Destination := { env.Destination with Namespace := es.newNsName } }
                  : EnvironmentSpec)
              else env).Destination with Server := es.newServer } } : EnvironmentSpec)
        else (if es.newNsName ≠ "" then
                ({ env with Destination := { env.Destination with Namespace := es.newNsName } }
                  : EnvironmentSpec)
              else env)) = specUpdatedEnv es env := by
      unfold specUpdatedEnv
      by_cases hn : es.newNsName = "" <;> by_cases hs : es.newServer = "" <;> simp [hn, hs]
    simp only [henv]
    rfl
  · intro h
    simp [specUpdatedEnv, h]
  · intro h
    simp [specUpdatedEnv, h]
  · intro h
    simp [specUpdatedEnv, h]
  · intro h
    simp [specUpdatedEnv, h]

theorem updateEnvSpec_spec_witness :
    updateEnvSpec (exampleEnvSet "" "new_namespace" "" "") oldEnv
        = (none,
            { Path := "old_env_name",
              Destination := { Server := "old_server", Namespace := "new_namespace" },
              isOverride := false },
            [.update "old_env_name" ""
              { Path := "old_env_name",
                Destination := { Server := "old_server", Namespace := "new_namespace" },
                isOverride := false } false])
      ∧ updateEnvSpec (exampleEnvSet "" "" "" "") oldEnv = (none, oldEnv, []) :=
  ⟨((updateEnvSpec_spec (exampleEnvSet "" "new_namespace" "" "") oldEnv).2.1
      (by decide)).trans (by decide),
    (updateEnvSpec_spec (exampleEnvSet "" "" "" "") oldEnv).1 (by decide)⟩

theorem updateEnvSpec_calls (es : EnvSet) (env : EnvironmentSpec) :
    ∀ c ∈ (updateEnvSpec es env).2.2,
      ∃ k8sAPISpec spec override, c = .update es.envName k8sAPISpec spec override := by
  intro c hc
  unfold updateEnvSpec at hc
  split at hc
  · simp at hc
  · simp only [List.mem_singleton] at hc
    exact ⟨_, _, _, hc⟩

theorem Run_of_updateName (es es' : EnvSet) (env : EnvironmentSpec) (calls : List EnvCall)
    (hres : es.Environment es.envName = .ok env)
    (hname : updateName es env.isOverride = (none, es', calls)) :
    Run es = ((updateEnvSpec es' env).1, calls ++ (updateEnvSpec es' env).2.2) := by
  unfold Run
  rw [hres]
  simp only [hname]
  rcases hu : updateEnvSpec es' env with ⟨err, env', calls'⟩
  cases err <;> rfl

/-- C15: when the environment record is found and the new name is not
empty, `Run` first calls the rename function with the old environment name,
the new name and the record's override flag; a failed rename makes `Run`
return that error with no call of the update function, and after a
successful rename the field update is the one of `updateEnvSpec` addressed
to the new name.  With an empty new name the rename function is not called
and the update is addressed to the original name. -/
theorem Run_rename_then_update (es : EnvSet) (env : EnvironmentSpec)
    (hres : es.Environment es.envName = .ok env) :
    (es.newName ≠ "" →
        (∀ err, es.envRenameFn es.envName es.newName env.isOverride = some err →
          Run es = (some err, [.rename es.envName es.newName env.isOverride]))
        ∧ (es.envRenameFn es.envName es.newName env.isOverride = none →
          Run es = ((updateEnvSpec { es with envName := es.newName } env).1,
              .rename es.envName es.newName env.isOverride
                :: (updateEnvSpec { es with envName := es.newName } env).2.2)
          ∧ ∀ c ∈ (updateEnvSpec { es with envName := es.newName } env).2.2,
              ∃ k8sAPISpec spec override, c = .update es.newName k8sAPISpec spec override))
      ∧ (es.newName = "" →
          Run es = ((updateEnvSpec es env).1, (updateEnvSpec es env).2.2)
          ∧ ∀ c ∈ (Run es).2,
              ∃ k8sAPISpec spec override, c = .update es.envName k8sAPISpec spec override) := by
  constructor
  · intro hnew
    constructor
    · intro err herr
      unfold Run
      rw [hres]
      simp only [updateName, hnew, ne_eq, not_false_eq_true, if_true, herr]
    · intro hok
      have hname : updateName es env.isOverride
          = (none, { es with envName := es.newName },
              [.rename es.envName es.newName env.isOverride]) := by
        simp only [updateName, hnew, ne_eq, not_false_eq_true, if_true, hok]
      refine ⟨?_, updateEnvSpec_calls { es with envName := es.newName } env⟩
      rw [Run_of_updateName es _ env _ hres hname]
      rfl
  · intro hnew
    have hname : updateName es env.isOverride = (none, es, []) := by
      simp only [updateName, hnew, ne_eq, not_true_eq_false, if_false]
    have hrun := Run_of_updateName es es env [] hres hname
    rw [List.nil_append] at hrun
    refine ⟨hrun, ?_⟩
    rw [hrun]
    exact updateEnvSpec_calls es env

theorem Run_rename_then_update_witness :
    Run (exampleEnvSet "new_env_name" "new_namespace" "new_server" "version:new_api_spec")
        = (none,
            [.rename "old_env_name" "new_env_name" false,
              .update "new_env_name" "version:new_api_spec"
                { Path := "old_env_name",
                  Destination := { Server := "new_server", Namespace := "new_namespace" },
                  isOverride := false } false])
      ∧ Run failingRename
        = (some (.external "environment exists"),
            [.rename "old_env_name" "new_env_name" false])
      ∧ Run (exampleEnvSet "" "new_namespace" "" "")
        = (none,
            [.update "old_env_name" ""
              { Path := "old_env_name",
                Destination := { Server := "old_server", Namespace := "new_namespace" },
                isOverride := false } false]) :=
  ⟨((((Run_rename_then_update
        (exampleEnvSet "new_env_name" "new_namespace" "new_server" "version:new_api_spec")
        oldEnv rfl).1 (by decide)).2 rfl).1).trans (by decide),
    ((Run_rename_then_update failingRename oldEnv rfl).1 (by decide)).1 _ rfl,
    (((Run_rename_then_update (exampleEnvSet "" "new_namespace" "" "") oldEnv rfl).2
      rfl).1).trans (by decide)⟩

/-! ## Search paths of the evaluator -/

/-- What `Pipeline.EnvParameters` gives the evaluator when every step before
the evaluation succeeds: three search paths, without the library path of
the environment, and the one external variable. -/
theorem EnvParameters_vm {Text : Type} (L : Lib Text) (a : App Text) (p : Pipeline Text)
    (moduleName : String) (inherited : Bool) (module : Module Text) (paramsStr : Text)
    (data : String) (env : EnvironmentSpec)
    (hm : a.GetModule moduleName = .ok module)
    (hp : moduleParams L p module inherited = .ok paramsStr)
    (hd : a.EnvironmentParams p.envName = .ok data)
    (he : a.Environment p.envName = .ok env) :
    EnvParameters L a p moduleName inherited
      = a.EvaluateSnippet
          ⟨[a.MakePath env a.Root, a.Join [a.Root, "lib"], a.Join [a.Root, "vendor"]],
            [("__ksonnet/params", paramsStr)]⟩
          "snippet" (upgradeParams p.envName data).1 := by
  unfold EnvParameters
  rw [hm]
  simp only [hp, hd, he]
  rfl

/-- What `envParams` of `pkg/component` gives the evaluator when every step
before the evaluation succeeds: the four search paths, the library path of
the environment first, and the one external variable. -/
theorem envParams_vm {Text : Type} (a : App Text) (moduleName envName : String)
    (libPath : String) (ns : Module Text) (noGlobal paramsStr : Text)
    (data : String) (env : EnvironmentSpec)
    (hl : a.LibPath envName = .ok libPath)
    (hm : a.GetModule moduleName = .ok ns)
    (hp : ns.ResolvedParams envName = .ok (noGlobal, paramsStr))
    (hd : a.EnvironmentParams envName = .ok data)
    (he : a.Environment envName = .ok env) :
    envParams a moduleName envName
      = a.EvaluateSnippet
          ⟨[libPath, a.MakePath env a.Root, a.Join [a.Root, "lib"], a.Join [a.Root, "vendor"]],
            [("__ksonnet/params", paramsStr)]⟩
          "snippet" (upgradeParams envName data).1 := by
  unfold envParams
  rw [hl]
  simp only [hm, hp, hd, he]
  rfl

/-- C13, at a concrete project: `envParams` of `pkg/component` gives the
evaluator the four search paths (library path of the environment,
environment directory, `lib`, `vendor`) and the one external variable
`__ksonnet/params`, but `Pipeline.EnvParameters` gives it only three search
paths: the library path of the environment is missing. -/
theorem EnvParameters_misses_libPath
    (eval : VM ExampleText → String → String → Except GoError ExampleText) :
    envParams (exampleApp eval) "/web" "default"
        = eval ⟨["/app/lib/v1.7.0", "/app/environments/default", "/app/lib", "/app/vendor"],
            [("__ksonnet/params", .source "{ components: { } }")]⟩ "snippet" "{ }"
      ∧ EnvParameters exampleLib (exampleApp eval) (examplePipeline [] []) "/web" true
        = eval ⟨["/app/environments/default", "/app/lib", "/app/vendor"],
            [("__ksonnet/params", .source "{ components: { } }")]⟩ "snippet" "{ }" := by
  have h1 : exampleJoin ["/app", "environments", "default"] = "/app/environments/default" := by
    decide
  have h2 : exampleJoin ["/app", "lib"] = "/app/lib" := by decide
  have h3 : exampleJoin ["/app", "vendor"] = "/app/vendor" := by decide
  have h4 : (upgradeParams "default" "{ }").1 = "{ }" := by decide
  constructor
  · rw [envParams_vm (exampleApp eval) "/web" "default" "/app/lib/v1.7.0" (exampleModule [])
      (.source "{ components: { } }") (.source "{ components: { } }") "{ }"
      { Path := "default", Destination := { Server := "", Namespace := "default" },
        isOverride := false } rfl rfl rfl rfl rfl]
    show eval ⟨["/app/lib/v1.7.0", exampleJoin ["/app", "environments", "default"],
        exampleJoin ["/app", "lib"], exampleJoin ["/app", "vendor"]],
      [("__ksonnet/params", ExampleText.source "{ components: { } }")]⟩ "snippet"
      (upgradeParams "default" "{ }").1 = _
    rw [h1, h2, h3, h4]
  · rw [EnvParameters_vm exampleLib (exampleApp eval) (examplePipeline [] []) "/web" true
      (exampleModule []) (.source "{ components: { } }") "{ }"
      { Path := "default", Destination := { Server := "", Namespace := "default" },
        isOverride := false } rfl rfl rfl rfl]
    show eval ⟨[exampleJoin ["/app", "environments", "default"],
        exampleJoin ["/app", "lib"], exampleJoin ["/app", "vendor"]],
      [("__ksonnet/params", ExampleText.source "{ components: { } }")]⟩ "snippet"
      (upgradeParams "default" "{ }").1 = _
    rw [h1, h2, h3, h4]

end Ksonnet
